import Mathlib

/-!
Verification of the fpay NFT-marketplace backend core: the ledger
aggregator, the auction/bid state machine, atomic settlement, the
minting debit, the profit-claim accrual, and the withdrawal-approval
flow.  Each route handler is embedded as a pure function from a
database state (plus the request data that survives validation and
authentication) to a response together with the successor state.
Monetary amounts (DOUBLE PRECISION columns) are modelled as rationals,
timestamps as rational milliseconds since the epoch, and the store's
transactional commit as an explicit `commit` oracle: a `db.$transaction`
block either applies all of its writes (`commit = true`) or none
(`commit = false`).
-/

namespace FPay

/-- Transaction types, from the Prisma `TransactionType` enum
(migrations plus the DEPOSIT/WITHDRAWAL values used by the routes). -/
inductive TxnType where
  | SALE | TRANSFER | MINT | DEPOSIT | WITHDRAWAL
  deriving DecidableEq, Repr

/-- A row of the append-only `transactions` table. -/
structure Txn where
  id : String
  nftId : Option String
  userId : String
  amount : ℚ
  type : TxnType
  transactionHash : String
  deriving DecidableEq, Repr

/-- A row of the `nfts` table (the fields the embedded routes read or write). -/
structure NFT where
  id : String
  tokenId : String
  name : String
  description : Option String
  image : String
  price : Option ℚ
  category : Option String
  isListed : Bool
  isSold : Bool
  creatorId : String
  ownerId : Option String
  collectionId : Option String
  deriving DecidableEq, Repr

/-- A row of the `auctions` table. -/
structure Auction where
  id : String
  nftId : String
  sellerId : String
  startPrice : ℚ
  reservePrice : Option ℚ
  currentPrice : ℚ
  startTime : ℚ
  endTime : ℚ
  isActive : Bool
  deriving DecidableEq, Repr

/-- A row of the `bids` table. -/
structure Bid where
  id : String
  auctionId : String
  nftId : String
  bidderId : String
  amount : ℚ
  deriving DecidableEq, Repr

/-- A row of the `stock_purchases` table (the fields the stock routes use). -/
structure StockPurchase where
  id : String
  userId : String
  symbol : String
  amountUSD : ℚ
  priceUSD : ℚ
  shares : ℚ
  lastProfitClaimAt : ℚ
  deriving DecidableEq, Repr

/-- The `WithdrawalStatus` enum of the `withdrawal_requests` migration. -/
inductive WithdrawalStatus where
  | PENDING | APPROVED | DENIED
  deriving DecidableEq, Repr

/-- A row of the `withdrawal_requests` table. -/
structure WithdrawalRequest where
  id : String
  userId : String
  amount : ℚ
  method : String
  status : WithdrawalStatus
  deriving DecidableEq, Repr

/-- A row of the `collections` table (only the field the NFT-create route reads). -/
structure Collection where
  id : String
  creatorId : String
  deriving DecidableEq, Repr

/-- A row of the `users` table (only the fields the embedded routes read). -/
structure User where
  id : String
  isAdmin : Bool
  deriving DecidableEq, Repr

/-- The relational store, one list per table. -/
structure MarketState where
  users : List User
  nfts : List NFT
  collections : List Collection
  auctions : List Auction
  bids : List Bid
  transactions : List Txn
  stockPurchases : List StockPurchase
  withdrawalRequests : List WithdrawalRequest
  deriving DecidableEq, Repr

/-- Query `findUnique` on the `nfts` table. -/
def findNFT (s : MarketState) (id : String) : Option NFT :=
  s.nfts.find? (fun n => n.id == id)

/-- Query `findUnique` on the `auctions` table. -/
def findAuction (s : MarketState) (id : String) : Option Auction :=
  s.auctions.find? (fun a => a.id == id)

/-- Query `findUnique` on the `users` table. -/
def findUser (s : MarketState) (id : String) : Option User :=
  s.users.find? (fun u => u.id == id)

/-- Query `findUnique` on the `collections` table. -/
def findCollection (s : MarketState) (id : String) : Option Collection :=
  s.collections.find? (fun c => c.id == id)

/-- Query `findUnique` on the `withdrawal_requests` table. -/
def findWithdrawalRequest (s : MarketState) (id : String) : Option WithdrawalRequest :=
  s.withdrawalRequests.find? (fun r => r.id == id)

/-- Sum of `amount` over the transactions satisfying `p`
(the `aggregate _sum` queries). -/
def sumWhere (txns : List Txn) (p : Txn → Bool) : ℚ :=
  ((txns.filter p).map Txn.amount).sum

/-- Aggregate sum over one user and one transaction type. -/
def sumByType (txns : List Txn) (uid : String) (t : TxnType) : ℚ :=
  sumWhere txns (fun x => x.userId == uid && x.type == t)

/-- Wallet balance as the user-profile GET computes it
(`src/unnamed/part_007`, lines 78-98 and 170): DEPOSIT credits minus a
single aggregate over the debit types WITHDRAWAL and MINT. -/
def walletBalanceOfProfile (txns : List Txn) (uid : String) : ℚ :=
  sumWhere txns (fun x => x.userId == uid && x.type == TxnType.DEPOSIT)
    - sumWhere txns (fun x => x.userId == uid &&
        (x.type == TxnType.WITHDRAWAL || x.type == TxnType.MINT))

/-- Available balance as the NFT-create POST computes it
(`src/unnamed/part_010`, lines 291-309): credits minus the sum of the
two separately aggregated debit totals. -/
def availableBalance (txns : List Txn) (uid : String) : ℚ :=
  sumByType txns uid TxnType.DEPOSIT
    - (sumByType txns uid TxnType.WITHDRAWAL + sumByType txns uid TxnType.MINT)

/-- Modelled from the spec: the Ledger Aggregator contract
`balance = sum(DEPOSIT) - sum(WITHDRAWAL) - sum(MINT)`. -/
def specBalance (txns : List Txn) (uid : String) : ℚ :=
  sumByType txns uid TxnType.DEPOSIT - sumByType txns uid TxnType.WITHDRAWAL
    - sumByType txns uid TxnType.MINT

/-- Error taxonomy of the embedded route handlers. -/
inductive ApiError where
  | notFound | unavailable | selfPurchase | activeAuction | invalidPrice
  | inactive | expired | selfBid | bidTooLow | alreadyHighest
  | insufficientBalance | forbidden | alreadySold | alreadyActive
  | validationFailed | invalidStatus | conflictHistory | internalError
  deriving DecidableEq, Repr

/-- The user-profile GET (`src/unnamed/part_007`): look the user up, run
the aggregate queries, return the derived statistics.  The handler only
reads, so the state component of the result is the input state. -/
def getUserProfile (s : MarketState) (uid : String) :
    Except ApiError ℚ × MarketState :=
  match findUser s uid with
  | none => (Except.error ApiError.notFound, s)
  | some _ => (Except.ok (walletBalanceOfProfile s.transactions uid), s)

/-- The active-unexpired-auction lookup used by the purchase and
auction-create routes: `findFirst` with
`isActive: true, endTime: { gt: now }`. -/
def activeUnexpiredAuctionFor (s : MarketState) (nftId : String) (now : ℚ) :
    Option Auction :=
  s.auctions.find? (fun a => a.nftId == nftId && a.isActive && decide (now < a.endTime))

/-- Result of a successful purchase settlement: the SALE transaction and
the updated NFT. -/
structure SettleResult where
  txn : Txn
  nft : NFT
  deriving DecidableEq, Repr

/-- The purchase route POST (`src/unnamed/part_011`): precondition checks
followed by a `db.$transaction` that creates the SALE transaction and
updates the NFT.  `commit` is the store's verdict on that atomic block:
on `false` the block aborts, nothing is written, and the caller sees a
500.  `txId` and `txHash` stand for the generated identifiers. -/
def settlePurchase (s : MarketState) (buyerId nftId : String) (now : ℚ)
    (txId txHash : String) (commit : Bool) :
    Except ApiError SettleResult × MarketState :=
  match findNFT s nftId with
  | none => (Except.error ApiError.notFound, s)
  | some nft =>
    if !nft.isListed || nft.isSold then (Except.error ApiError.unavailable, s)
    else if nft.ownerId == some buyerId then (Except.error ApiError.selfPurchase, s)
    else if (activeUnexpiredAuctionFor s nftId now).isSome then
      (Except.error ApiError.activeAuction, s)
    else
      match nft.price with
      | none => (Except.error ApiError.invalidPrice, s)
      | some p =>
        if p ≤ 0 then (Except.error ApiError.invalidPrice, s)
        else if commit then
          let txn : Txn := ⟨txId, some nftId, buyerId, p, TxnType.SALE, txHash⟩
          let upd : NFT → NFT := fun n =>
            if n.id == nftId then
              { n with ownerId := some buyerId, isSold := true, isListed := false }
            else n
          (Except.ok ⟨txn, upd nft⟩,
           { s with
               transactions := s.transactions ++ [txn],
               nfts := s.nfts.map upd })
        else (Except.error ApiError.internalError, s)

/-- The fixed minting fee of the NFT-create route
(`src/unnamed/part_010`, line 267). -/
def MINT_FEE : ℚ := 1/10

/-- Body of a validated NFT-create request (`nftCreateSchema`). -/
structure MintInput where
  name : String
  description : Option String
  image : String
  category : Option String
  price : Option ℚ
  collectionId : Option String
  deriving DecidableEq, Repr

/-- The NFT-create POST (`src/unnamed/part_010`, lines 233-382):
collection ownership check, fresh balance computation, insufficient-funds
gate, then a `db.$transaction` creating the NFT and the MINT-fee debit
together.  `commit` is the store's verdict on the atomic pair. -/
def createNFT (s : MarketState) (userId : String) (isAdmin : Bool)
    (inp : MintInput) (nftId tokenId txId txHash : String) (commit : Bool) :
    Except ApiError (NFT × Txn) × MarketState :=
  let collCheck : Option ApiError :=
    match inp.collectionId with
    | none => none
    | some cid =>
      match findCollection s cid with
      | none => some ApiError.notFound
      | some c => if c.creatorId == userId || isAdmin then none
                  else some ApiError.forbidden
  match collCheck with
  | some e => (Except.error e, s)
  | none =>
    if availableBalance s.transactions userId < MINT_FEE then
      (Except.error ApiError.insufficientBalance, s)
    else if commit then
      let nft : NFT :=
        ⟨nftId, tokenId, inp.name, inp.description, inp.image, inp.price,
         inp.category, true, false, userId, some userId, inp.collectionId⟩
      let txn : Txn := ⟨txId, none, userId, MINT_FEE, TxnType.MINT, txHash⟩
      (Except.ok (nft, txn),
       { s with
           nfts := s.nfts ++ [nft],
           transactions := s.transactions ++ [txn] })
    else (Except.error ApiError.internalError, s)

/-- The current highest bid: `orderBy: { amount: desc }, take: 1`,
realised as the maximum-amount element (first one wins on equal amounts). -/
def highestBid (bids : List Bid) : Option Bid :=
  bids.foldl (fun acc b =>
    match acc with
    | none => some b
    | some m => if m.amount < b.amount then some b else acc) none

/-- The bids of one auction, as the `bids` relation of the auction row. -/
def bidsOf (s : MarketState) (auctionId : String) : List Bid :=
  s.bids.filter (fun b => b.auctionId == auctionId)

/-- Minimum acceptable bid (`src/app/api/auctions/[id]/bid/route.ts`,
line 102): highest bid plus 0.01 when a bid exists, else the start price. -/
def minimumBidFor (s : MarketState) (a : Auction) (auctionId : String) : ℚ :=
  match highestBid (bidsOf s auctionId) with
  | some b => b.amount + 1/100
  | none => a.startPrice

/-- The bid POST (`src/app/api/auctions/[id]/bid/route.ts`): schema
validation (`bidCreateSchema` at `src/lib/currencies.ts`, lines 233-236,
requires a positive amount), then the rejection ladder, then a single
`bid.create`.  A missing NFT relation is treated as an absent owner. -/
def placeBid (s : MarketState) (bidderId auctionId : String) (amount : ℚ)
    (now : ℚ) (bidId : String) : Except ApiError Bid × MarketState :=
  if amount ≤ 0 then (Except.error ApiError.validationFailed, s)
  else
    match findAuction s auctionId with
    | none => (Except.error ApiError.notFound, s)
    | some a =>
      if !a.isActive then (Except.error ApiError.inactive, s)
      else if a.endTime ≤ now then (Except.error ApiError.expired, s)
      else if ((findNFT s a.nftId).bind NFT.ownerId) == some bidderId then
        (Except.error ApiError.selfBid, s)
      else if amount < minimumBidFor s a auctionId then
        (Except.error ApiError.bidTooLow, s)
      else
        match highestBid (bidsOf s auctionId) with
        | some hb =>
          if hb.bidderId == bidderId then (Except.error ApiError.alreadyHighest, s)
          else
            let bid : Bid := ⟨bidId, auctionId, a.nftId, bidderId, amount⟩
            (Except.ok bid, { s with bids := s.bids ++ [bid] })
        | none =>
          let bid : Bid := ⟨bidId, auctionId, a.nftId, bidderId, amount⟩
          (Except.ok bid, { s with bids := s.bids ++ [bid] })

/-- Ownership check `validateNFTOwnership` (`src/unnamed/part_000`, lines 266-275):
admins always pass; otherwise the NFT must exist and the caller must be
its creator or its owner. -/
def validateNFTOwnership (s : MarketState) (userId nftId : String)
    (isAdmin : Bool) : Bool :=
  if isAdmin then true
  else
    match findNFT s nftId with
    | none => false
    | some n => n.creatorId == userId || n.ownerId == some userId

/-- Body of a validated auction-create request. -/
structure AuctionInput where
  nftId : String
  startingPrice : ℚ
  reservePrice : Option ℚ
  duration : ℚ
  deriving DecidableEq, Repr

/-- The `auctionCreateSchema` validation (`src/lib/currencies.ts`, lines
223-230): non-empty NFT id, positive starting price, optional positive
reserve price, duration between 1 and 168 hours. -/
def auctionInputValid (i : AuctionInput) : Bool :=
  !(i.nftId == "") && decide (0 < i.startingPrice)
    && decide (1 ≤ i.duration) && decide (i.duration ≤ 168)
    && (match i.reservePrice with
        | none => true
        | some r => decide (0 < r))

/-- The auction-create POST (`src/app/api/auctions/route.ts`, lines
167-326): validation, NFT lookup, ownership check, not-sold check,
no-active-unexpired-auction check, then `auction.create` with
`endTime = now + duration hours` and `isActive = true`. -/
def createAuction (s : MarketState) (userId : String) (isAdmin : Bool)
    (inp : AuctionInput) (auctionId : String) (now : ℚ) :
    Except ApiError Auction × MarketState :=
  if !auctionInputValid inp then (Except.error ApiError.validationFailed, s)
  else
    match findNFT s inp.nftId with
    | none => (Except.error ApiError.notFound, s)
    | some nft =>
      if !validateNFTOwnership s userId inp.nftId isAdmin then
        (Except.error ApiError.forbidden, s)
      else if nft.isSold then (Except.error ApiError.alreadySold, s)
      else if (activeUnexpiredAuctionFor s inp.nftId now).isSome then
        (Except.error ApiError.alreadyActive, s)
      else
        let a : Auction :=
          ⟨auctionId, inp.nftId, userId, inp.startingPrice, inp.reservePrice,
           inp.startingPrice, now, now + inp.duration * 3600000, true⟩
        (Except.ok a, { s with auctions := s.auctions ++ [a] })

/-- Hours elapsed since the last claim
(`src/app/api/stocks/purchases/claim/route.ts`, line 38):
`Math.max(0, (now - last) / 3600000)`. -/
def hoursElapsed (now last : ℚ) : ℚ := max 0 ((now - last) / 3600000)

/-- Profit accrued by one stock purchase (line 39): 10% of `amountUSD`
per elapsed hour. -/
def purchaseProfit (now : ℚ) (p : StockPurchase) : ℚ :=
  p.amountUSD * (1/10) * hoursElapsed now p.lastProfitClaimAt

/-- Rounding to whole cents, as `Number(x.toFixed(2))` does. -/
def roundCents (x : ℚ) : ℚ := (round (x * 100) : ℤ) / 100

/-- Total accrued profit of a user: the loop of lines 36-44 sums the
per-purchase profits that are strictly positive. -/
def totalAccrued (s : MarketState) (uid : String) (now : ℚ) : ℚ :=
  (((s.stockPurchases.filter (fun p => p.userId == uid)).filter
      (fun p => decide (0 < purchaseProfit now p))).map (purchaseProfit now)).sum

/-- The profit-claim POST (`src/app/api/stocks/purchases/claim/route.ts`):
user-existence check, accrual over that user's purchases, then either the
zero-claim no-op or a `db.$transaction` creating one aggregate DEPOSIT
for the rounded total and advancing `lastProfitClaimAt` on every
contributing purchase.  `commit` is the store's verdict on the block. -/
def claimProfit (s : MarketState) (uid : String) (now : ℚ)
    (txId txHash : String) (commit : Bool) : Except ApiError ℚ × MarketState :=
  match findUser s uid with
  | none => (Except.error ApiError.notFound, s)
  | some _ =>
    let totalProfit := totalAccrued s uid now
    if totalProfit ≤ 0 then (Except.ok 0, s)
    else if commit then
      let contributed :=
        ((s.stockPurchases.filter (fun p => p.userId == uid)).filter
          (fun p => decide (0 < purchaseProfit now p))).map StockPurchase.id
      let txn : Txn := ⟨txId, none, uid, roundCents totalProfit, TxnType.DEPOSIT, txHash⟩
      (Except.ok totalProfit,
       { s with
           transactions := s.transactions ++ [txn],
           stockPurchases := s.stockPurchases.map (fun p =>
             if contributed.contains p.id then { p with lastProfitClaimAt := now }
             else p) })
    else (Except.error ApiError.internalError, s)

/-- Uppercasing `String(status).toUpperCase()` (the statuses compared against are
ASCII). -/
def upperAscii (str : String) : String := String.mk (str.data.map Char.toUpper)

/-- The normalised status accepted by the withdrawal-request PUTs. -/
def statusFromString (statusStr : String) : WithdrawalStatus :=
  if upperAscii statusStr == "APPROVED" then WithdrawalStatus.APPROVED
  else WithdrawalStatus.DENIED

/-- The admin withdrawal-request PUT (`src/unnamed/part_009`, lines 6-41):
normalise the status, update the request row, and only then — outside the
update, inside a `try` whose failure is swallowed — create the WITHDRAWAL
transaction when the new status is APPROVED.  `txnFails` says whether
that late `transaction.create` throws; either way the handler returns
success with the already-updated request. -/
def adminUpdateWithdrawalRequest (s : MarketState) (reqId statusStr : String)
    (txId txHash : String) (txnFails : Bool) :
    Except ApiError WithdrawalRequest × MarketState :=
  if !(upperAscii statusStr == "APPROVED" || upperAscii statusStr == "DENIED") then
    (Except.error ApiError.invalidStatus, s)
  else
    match findWithdrawalRequest s reqId with
    | none => (Except.error ApiError.internalError, s)
    | some req =>
      if upperAscii statusStr == "APPROVED" && !txnFails then
        (Except.ok { req with status := WithdrawalStatus.APPROVED },
         { s with
             withdrawalRequests := s.withdrawalRequests.map (fun r =>
               if r.id == reqId then { r with status := WithdrawalStatus.APPROVED }
               else r),
             transactions := s.transactions ++
               [⟨txId, none, req.userId, req.amount, TxnType.WITHDRAWAL, txHash⟩] })
      else
        (Except.ok { req with status := statusFromString statusStr },
         { s with
             withdrawalRequests := s.withdrawalRequests.map (fun r =>
               if r.id == reqId then { r with status := statusFromString statusStr }
               else r) })

/-- The user withdrawal-request PUT
(`src/app/api/user/withdrawal/request/[id]/route.ts`, lines 24-48):
normalise the status, check the request belongs to the caller, update the
status.  No transaction row is ever created here. -/
def userUpdateWithdrawalRequest (s : MarketState) (uid reqId statusStr : String) :
    Except ApiError WithdrawalRequest × MarketState :=
  if !(upperAscii statusStr == "APPROVED" || upperAscii statusStr == "DENIED") then
    (Except.error ApiError.invalidStatus, s)
  else
    match s.withdrawalRequests.find? (fun r => r.id == reqId && r.userId == uid) with
    | none => (Except.error ApiError.notFound, s)
    | some req =>
      (Except.ok { req with status := statusFromString statusStr },
       { s with
           withdrawalRequests := s.withdrawalRequests.map (fun r =>
             if r.id == reqId then { r with status := statusFromString statusStr }
             else r) })

/-- Body of a validated stock-purchase-create request. -/
structure StockPurchaseInput where
  symbol : String
  amountUSD : ℚ
  priceUSD : ℚ
  shares : ℚ
  deriving DecidableEq, Repr

/-- The stock-purchase POST (`src/app/api/stocks/purchases/route.ts`,
lines 44-106): create the StockPurchase row, then — in a separate `try`
whose failure only logs a warning and continues — create the WITHDRAWAL
transaction for `amountUSD`.  `txnFails` says whether that second insert
throws; the handler reports success either way. -/
def createStockPurchase (s : MarketState) (uid : String)
    (inp : StockPurchaseInput) (spId txId txHash : String) (now : ℚ)
    (txnFails : Bool) : Except ApiError StockPurchase × MarketState :=
  let sp : StockPurchase :=
    ⟨spId, uid, inp.symbol, inp.amountUSD, inp.priceUSD, inp.shares, now⟩
  let s₁ := { s with stockPurchases := s.stockPurchases ++ [sp] }
  if txnFails then (Except.ok sp, s₁)
  else
    (Except.ok sp,
     { s₁ with transactions := s₁.transactions ++
         [⟨txId, none, uid, inp.amountUSD, TxnType.WITHDRAWAL, txHash⟩] })

/-- Body of a validated NFT-update request (`nftUpdateSchema`). -/
structure NFTUpdateInput where
  name : Option String
  description : Option String
  price : Option ℚ
  isListed : Option Bool
  deriving DecidableEq, Repr

/-- The update document of the NFT PUT, built from conditional spreads:
`name`/`description` apply only when truthy (non-empty), `price` and
`isListed` whenever present.  `isSold`, `ownerId` and `creatorId` are
never part of the update. -/
def applyNFTUpdate (inp : NFTUpdateInput) (n : NFT) : NFT :=
  { n with
      name := match inp.name with
        | some nm => if nm == "" then n.name else nm
        | none => n.name,
      description := match inp.description with
        | some d => if d == "" then n.description else some d
        | none => n.description,
      price := match inp.price with
        | some p => some p
        | none => n.price,
      isListed := match inp.isListed with
        | some b => b
        | none => n.isListed }

/-- The NFT PUT (`src/app/api/nfts/[id]/route.ts`, lines 124-235):
existence and ownership checks, then the conditional-spread update. -/
def updateNFT (s : MarketState) (uid : String) (isAdmin : Bool)
    (nftId : String) (inp : NFTUpdateInput) : Except ApiError NFT × MarketState :=
  match findNFT s nftId with
  | none => (Except.error ApiError.notFound, s)
  | some n =>
    if !validateNFTOwnership s uid nftId isAdmin then
      (Except.error ApiError.forbidden, s)
    else
      (Except.ok (applyNFTUpdate inp n),
       { s with nfts := s.nfts.map (fun m =>
           if m.id == nftId then applyNFTUpdate inp m else m) })

/-- The NFT DELETE (`src/app/api/nfts/[id]/route.ts`, lines 238-322):
existence and ownership checks, refusal while any transaction or auction
references the NFT, then the delete. -/
def deleteNFT (s : MarketState) (uid : String) (isAdmin : Bool)
    (nftId : String) : Except ApiError Unit × MarketState :=
  match findNFT s nftId with
  | none => (Except.error ApiError.notFound, s)
  | some _ =>
    if !validateNFTOwnership s uid nftId isAdmin then
      (Except.error ApiError.forbidden, s)
    else if s.transactions.any (fun t => t.nftId == some nftId) then
      (Except.error ApiError.conflictHistory, s)
    else if s.auctions.any (fun a => a.nftId == nftId) then
      (Except.error ApiError.conflictHistory, s)
    else
      (Except.ok (), { s with nfts := s.nfts.filter (fun n => !(n.id == nftId)) })

/-- Body of a validated transaction-create request
(`transactionCreateSchema`: positive amount). -/
structure TxnCreateInput where
  type : TxnType
  nftId : Option String
  userId : String
  amount : ℚ
  transactionHash : String
  deriving DecidableEq, Repr

/-- The transaction POST (`src/app/api/transactions/route.ts`, lines
115-245): referenced NFT and user must exist, then a single
`transaction.create`. -/
def createTransactionRoute (s : MarketState) (inp : TxnCreateInput)
    (txId : String) : Except ApiError Txn × MarketState :=
  if inp.amount ≤ 0 then (Except.error ApiError.validationFailed, s)
  else
    match inp.nftId with
    | some nid =>
      if (findNFT s nid).isNone then (Except.error ApiError.notFound, s)
      else
        match findUser s inp.userId with
        | none => (Except.error ApiError.notFound, s)
        | some _ =>
          let txn : Txn := ⟨txId, some nid, inp.userId, inp.amount, inp.type,
                            inp.transactionHash⟩
          (Except.ok txn, { s with transactions := s.transactions ++ [txn] })
    | none =>
      match findUser s inp.userId with
      | none => (Except.error ApiError.notFound, s)
      | some _ =>
        let txn : Txn := ⟨txId, none, inp.userId, inp.amount, inp.type,
                          inp.transactionHash⟩
        (Except.ok txn, { s with transactions := s.transactions ++ [txn] })

/-- The claim's acceptance condition for a bid: the auction exists and is
active, its end time has not passed, the bidder is not the NFT's owner,
the amount reaches the minimum acceptable bid, and the bidder does not
already hold the current highest bid. -/
def BidAccepted (s : MarketState) (bidderId auctionId : String)
    (amount now : ℚ) : Prop :=
  ∃ a, findAuction s auctionId = some a ∧ a.isActive = true ∧ now < a.endTime
    ∧ ¬ (((findNFT s a.nftId).bind NFT.ownerId) = some bidderId)
    ∧ minimumBidFor s a auctionId ≤ amount
    ∧ ∀ hb, highestBid (bidsOf s auctionId) = some hb → ¬ hb.bidderId = bidderId

/-- Concrete fixtures for the bidding scenario: an active auction with
start price 1 on an NFT owned by the seller, and no bids yet. -/
def bidNFT : NFT :=
  ⟨"n1", "tok1", "art", none, "img", some 5, none, true, false, "seller",
   some "seller", none⟩

def bidAuction : Auction := ⟨"a1", "n1", "seller", 1, none, 1, 0, 3600000, true⟩

def bidState0 : MarketState :=
  ⟨[⟨"seller", false⟩, ⟨"u1", false⟩, ⟨"u2", false⟩], [bidNFT], [],
   [bidAuction], [], [], [], []⟩

/-- The state after the first accepted bid of 1.0 by `u1`. -/
def bidState1 : MarketState := (placeBid bidState0 "u1" "a1" 1 0 "b1").2

/-- Mint-scenario fixtures: a user whose DEPOSIT transactions sum to 1.0,
and a collectionless mint request.  The generated identifiers play no
role in the balance computation, so the chain reuses one. -/
def mintInput0 : MintInput := ⟨"art", none, "img", none, some 1, none⟩

def mintState0 : MarketState :=
  ⟨[⟨"u1", false⟩], [], [], [], [],
   [⟨"d1", none, "u1", 1, TxnType.DEPOSIT, "h0"⟩], [], []⟩

/-- The state after `k` consecutive mint requests by `u1`. -/
def mintChain : ℕ → MarketState
  | 0 => mintState0
  | k+1 => (createNFT (mintChain k) "u1" false mintInput0 "m" "m" "m" "m" true).2

/-- Profit-claim scenario fixtures: one purchase of 100 USD whose last
claim was at time 0, claimed one hour (3600000 ms) later. -/
def claimPurchase0 : StockPurchase := ⟨"p1", "u1", "AAPL", 100, 100, 1, 0⟩

def claimState0 : MarketState :=
  ⟨[⟨"u1", false⟩], [], [], [], [], [], [claimPurchase0], []⟩

/-- The state after the one-hour claim. -/
def claimState1 : MarketState := (claimProfit claimState0 "u1" 3600000 "t1" "h1" true).2

/-- Auction-creation counterexample fixtures: an unsold NFT created by
alice but owned by bob. -/
def c7NFT : NFT :=
  ⟨"n1", "tok", "art", none, "img", some 1, none, true, false, "alice",
   some "bob", none⟩

def c7State : MarketState :=
  ⟨[⟨"alice", false⟩, ⟨"bob", false⟩], [c7NFT], [], [], [], [], [], []⟩

def c7Input : AuctionInput := ⟨"n1", 1, none, 24⟩

/-- The auction-create handler's acceptance condition: schema-valid
input, existing NFT, requester is admin or the NFT's creator or owner,
NFT not sold, and no active unexpired auction for it. -/
def AuctionAllowed (s : MarketState) (userId : String) (isAdmin : Bool)
    (inp : AuctionInput) (now : ℚ) : Prop :=
  auctionInputValid inp = true
  ∧ ∃ nft, findNFT s inp.nftId = some nft
      ∧ (isAdmin = true ∨ nft.creatorId = userId ∨ nft.ownerId = some userId)
      ∧ nft.isSold = false
      ∧ activeUnexpiredAuctionFor s inp.nftId now = none

/-- Number of active, unexpired auction rows for one NFT. -/
def activeCount (s : MarketState) (i : String) (now : ℚ) : ℕ :=
  (s.auctions.filter (fun a =>
    a.nftId == i && a.isActive && decide (now < a.endTime))).length

/-- The spec's auction invariant: at most one active unexpired auction row
per NFT. -/
def AtMostOneActive (s : MarketState) (now : ℚ) : Prop :=
  ∀ i, activeCount s i now ≤ 1

/-- One mutating request handled by any of the embedded route handlers,
over arbitrary request data and store verdicts. -/
inductive Step : MarketState → MarketState → Prop where
  | settle (s : MarketState) (b i : String) (now : ℚ) (tid th : String) (c : Bool) :
      Step s (settlePurchase s b i now tid th c).2
  | mint (s : MarketState) (u : String) (adm : Bool) (inp : MintInput)
      (nid tok tid th : String) (c : Bool) :
      Step s (createNFT s u adm inp nid tok tid th c).2
  | bid (s : MarketState) (b a : String) (amt now : ℚ) (bidId : String) :
      Step s (placeBid s b a amt now bidId).2
  | auction (s : MarketState) (u : String) (adm : Bool) (inp : AuctionInput)
      (aid : String) (now : ℚ) :
      Step s (createAuction s u adm inp aid now).2
  | claim (s : MarketState) (u : String) (now : ℚ) (tid th : String) (c : Bool) :
      Step s (claimProfit s u now tid th c).2
  | adminWithdraw (s : MarketState) (rid str tid th : String) (f : Bool) :
      Step s (adminUpdateWithdrawalRequest s rid str tid th f).2
  | userWithdraw (s : MarketState) (u rid str : String) :
      Step s (userUpdateWithdrawalRequest s u rid str).2
  | stock (s : MarketState) (u : String) (inp : StockPurchaseInput)
      (sid tid th : String) (now : ℚ) (f : Bool) :
      Step s (createStockPurchase s u inp sid tid th now f).2
  | nftUpdate (s : MarketState) (u : String) (adm : Bool) (nid : String)
      (inp : NFTUpdateInput) :
      Step s (updateNFT s u adm nid inp).2
  | nftDelete (s : MarketState) (u : String) (adm : Bool) (nid : String) :
      Step s (deleteNFT s u adm nid).2
  | txn (s : MarketState) (inp : TxnCreateInput) (tid : String) :
      Step s (createTransactionRoute s inp tid).2

/-- The NFT with this id is recorded as sold and some ledger row references
it (the situation right after a successful settlement). -/
def SoldWithHistory (s : MarketState) (i : String) : Prop :=
  (∃ n, findNFT s i = some n ∧ n.isSold = true)
  ∧ (∃ t, t ∈ s.transactions ∧ t.nftId = some i)

/-- The step neither edits the NFT table nor drops ledger rows. -/
def TablePreserving (s t : MarketState) : Prop :=
  t.nfts = s.nfts ∧ ∀ x ∈ s.transactions, x ∈ t.transactions

/-- Concrete fixture: a listed, unsold NFT priced 1 owned by a seller, and
a buyer whose ledger holds a single WITHDRAWAL, so the buyer's computed
balance is negative. -/
def negBalNFT : NFT :=
  ⟨"n1", "tok1", "art", none, "img", some 1, none, true, false, "seller",
   some "seller", none⟩

def negBalState : MarketState :=
  ⟨[⟨"seller", false⟩, ⟨"buyer", false⟩], [negBalNFT], [], [], [],
   [⟨"w1", none, "buyer", 5, TxnType.WITHDRAWAL, "h0"⟩], [], []⟩

/-- Concrete fixtures for the withdrawal-approval counterexample: a user
with one PENDING withdrawal request and an empty ledger. -/
def wdRequest0 : WithdrawalRequest := ⟨"r1", "u1", 50, "bank", WithdrawalStatus.PENDING⟩

def wdState0 : MarketState :=
  ⟨[⟨"u1", false⟩], [], [], [], [], [], [], [wdRequest0]⟩

theorem txnType_beq_decide (a b : TxnType) : (a == b) = decide (a = b) := rfl

theorem sumWhere_nil (p : Txn → Bool) : sumWhere [] p = 0 := rfl

theorem sumWhere_cons (x : Txn) (l : List Txn) (p : Txn → Bool) :
    sumWhere (x :: l) p = (if p x then x.amount else 0) + sumWhere l p := by
  by_cases h : p x = true
  · simp [sumWhere, List.filter_cons, h]
  · simp [sumWhere, List.filter_cons, h]

/-- Splitting the combined debit aggregate into the two per-type sums. -/
theorem sumWhere_or_split (txns : List Txn) (uid : String) :
    sumWhere txns (fun x => x.userId == uid &&
        (x.type == TxnType.WITHDRAWAL || x.type == TxnType.MINT))
      = sumByType txns uid TxnType.WITHDRAWAL + sumByType txns uid TxnType.MINT := by
  induction txns with
  | nil => simp [sumByType, sumWhere_nil]
  | cons x l ih =>
      simp only [sumByType] at *
      rw [sumWhere_cons, sumWhere_cons, sumWhere_cons, ih]
      rcases hx : x.type with _ | _ | _ | _ | _ <;>
        by_cases hu : (x.userId == uid) = true <;>
          simp [hx, hu, beq_iff_eq] <;> ring

theorem sumWhere_append (l₁ l₂ : List Txn) (p : Txn → Bool) :
    sumWhere (l₁ ++ l₂) p = sumWhere l₁ p + sumWhere l₂ p := by
  simp [sumWhere, List.filter_append]

theorem sumByType_append_single (l : List Txn) (x : Txn) (uid : String) (t : TxnType) :
    sumByType (l ++ [x]) uid t
      = sumByType l uid t + (if x.userId == uid && x.type == t then x.amount else 0) := by
  rw [sumByType, sumWhere_append, sumWhere_cons, sumWhere_nil, sumByType]
  ring

/-- Appending a SALE transaction does not move the spec balance. -/
theorem specBalance_append_sale (l : List Txn) (x : Txn) (uid : String)
    (hx : x.type = TxnType.SALE) :
    specBalance (l ++ [x]) uid = specBalance l uid := by
  simp [specBalance, sumByType_append_single, hx]

/-- Appending a WITHDRAWAL transaction for the same user debits the spec
balance by its amount. -/
theorem specBalance_append_withdrawal (l : List Txn) (x : Txn) (uid : String)
    (hx : x.type = TxnType.WITHDRAWAL) (hu : x.userId = uid) :
    specBalance (l ++ [x]) uid = specBalance l uid - x.amount := by
  simp [specBalance, sumByType_append_single, hx, hu]
  ring

/-- Lookup `find?` by id commutes with an id-preserving map. -/
theorem find?_map_id_preserving (l : List NFT) (f : NFT → NFT) (q : String)
    (hf : ∀ n, (f n).id = n.id) :
    (l.map f).find? (fun n => n.id == q) = (l.find? (fun n => n.id == q)).map f := by
  rw [List.find?_map]
  have hcomp : ((fun n : NFT => n.id == q) ∘ f) = fun n : NFT => n.id == q := by
    funext n
    simp [Function.comp, hf]
  rw [hcomp]

/-- Lookup `find?` by one id is unaffected by filtering another id out. -/
theorem find?_filter_other_id (l : List NFT) (i j : String) (hij : i ≠ j) :
    (l.filter (fun n => !(n.id == j))).find? (fun n => n.id == i)
      = l.find? (fun n => n.id == i) := by
  induction l with
  | nil => rfl
  | cons x xs ih =>
      by_cases hx : x.id = j
      · have hji : (j == i) = false := by
          rw [beq_eq_false_iff_ne]
          exact fun h => hij h.symm
        have h1 : (x.id == i) = false := by rw [hx]; exact hji
        simp [List.filter_cons, List.find?_cons, hx, hji, h1, ih]
      · by_cases h3 : (x.id == i) = true
        · simp [List.filter_cons, List.find?_cons, hx, h3]
        · simp [List.filter_cons, List.find?_cons, hx, h3, ih]

/-- Lookup `find?` keeps its result when the list grows on the right. -/
theorem find?_append_of_found {α : Type} (l₁ l₂ : List α) (p : α → Bool) (a : α)
    (h : l₁.find? p = some a) : (l₁ ++ l₂).find? p = some a := by
  rw [List.find?_append, h]
  rfl

/-- C1.  The user-profile `walletBalance` and the NFT-create
`availableBalance` both equal the Ledger Aggregator contract
`sum(DEPOSIT) - sum(WITHDRAWAL) - sum(MINT)`, and the profile GET that
serves the balance returns the store unchanged, answering from the
aggregation alone. -/
theorem claim_c1_ledger_aggregator (txns : List Txn) (uid : String) (s : MarketState) :
    walletBalanceOfProfile txns uid = specBalance txns uid
    ∧ availableBalance txns uid = specBalance txns uid
    ∧ (getUserProfile s uid).2 = s
    ∧ (getUserProfile s uid).1
        = (findUser s uid).elim (Except.error ApiError.notFound)
            (fun _ => Except.ok (specBalance s.transactions uid)) := by
  have hw : ∀ (l : List Txn), walletBalanceOfProfile l uid = specBalance l uid := by
    intro l
    rw [walletBalanceOfProfile, sumWhere_or_split, specBalance]
    simp [sumByType]
    ring
  refine ⟨hw txns, ?_, ?_, ?_⟩
  · rw [availableBalance, specBalance]; ring
  · cases h : findUser s uid <;> simp [getUserProfile, h]
  · cases h : findUser s uid <;> simp [getUserProfile, h, hw]

/-- C10.  Creating a stock purchase records the StockPurchase row and
then, outside any atomic unit, a WITHDRAWAL transaction for `amountUSD`
that debits the computed balance; when that second insert fails the
purchase row is still there and the handler still reports success, so a
purchase can exist with no corresponding ledger debit. -/
theorem claim_c10_stock_purchase_nonatomic_debit (s : MarketState) (uid : String)
    (inp : StockPurchaseInput) (spId txId txHash : String) (now : ℚ) :
    (createStockPurchase s uid inp spId txId txHash now true
      = (Except.ok ⟨spId, uid, inp.symbol, inp.amountUSD, inp.priceUSD, inp.shares, now⟩,
         { s with stockPurchases := s.stockPurchases ++
             [⟨spId, uid, inp.symbol, inp.amountUSD, inp.priceUSD, inp.shares, now⟩] }))
    ∧ (createStockPurchase s uid inp spId txId txHash now false
      = (Except.ok ⟨spId, uid, inp.symbol, inp.amountUSD, inp.priceUSD, inp.shares, now⟩,
         { s with
             stockPurchases := s.stockPurchases ++
               [⟨spId, uid, inp.symbol, inp.amountUSD, inp.priceUSD, inp.shares, now⟩],
             transactions := s.transactions ++
               [⟨txId, none, uid, inp.amountUSD, TxnType.WITHDRAWAL, txHash⟩] }))
    ∧ specBalance (createStockPurchase s uid inp spId txId txHash now false).2.transactions uid
        = specBalance s.transactions uid - inp.amountUSD := by
  refine ⟨rfl, rfl, ?_⟩
  show specBalance (s.transactions ++ [⟨txId, none, uid, inp.amountUSD, TxnType.WITHDRAWAL, txHash⟩]) uid = _
  rw [specBalance_append_withdrawal] <;> rfl

/-- C6 counterexample.  The user-facing withdrawal-request PUT sets the
request's status to APPROVED yet creates no transaction at all: starting
from a PENDING request and an empty ledger, the request ends APPROVED
and the ledger is still empty, so an operation that sets APPROVED
without the WITHDRAWAL ledger entry exists. -/
theorem claim_c6_counterexample :
    (userUpdateWithdrawalRequest wdState0 "u1" "r1" "APPROVED").1
        = Except.ok ⟨"r1", "u1", 50, "bank", WithdrawalStatus.APPROVED⟩
    ∧ (userUpdateWithdrawalRequest wdState0 "u1" "r1" "APPROVED").2.withdrawalRequests
        = [⟨"r1", "u1", 50, "bank", WithdrawalStatus.APPROVED⟩]
    ∧ (userUpdateWithdrawalRequest wdState0 "u1" "r1" "APPROVED").2.transactions = [] := by
  refine ⟨?_, ?_, ?_⟩ <;> rfl

/-- C6 amended.  Only the admin update path creates a WITHDRAWAL
transaction on approval, and it does so after the status update, outside
any atomic unit, swallowing creation failures: the admin handler leaves
the request APPROVED whether or not the transaction insert succeeds
(appending the ledger entry exactly when it does), and the user-facing
handler updates the status without ever touching the ledger. -/
theorem claim_c6_withdrawal_approval (s : MarketState) (reqId : String)
    (txId txHash : String) (txnFails : Bool) (req : WithdrawalRequest)
    (hreq : findWithdrawalRequest s reqId = some req) :
    ((adminUpdateWithdrawalRequest s reqId "APPROVED" txId txHash txnFails).1
        = Except.ok { req with status := WithdrawalStatus.APPROVED })
    ∧ ((adminUpdateWithdrawalRequest s reqId "APPROVED" txId txHash txnFails).2.withdrawalRequests
        = s.withdrawalRequests.map (fun r =>
            if r.id == reqId then { r with status := WithdrawalStatus.APPROVED } else r))
    ∧ ((adminUpdateWithdrawalRequest s reqId "APPROVED" txId txHash txnFails).2.transactions
        = if txnFails then s.transactions
          else s.transactions ++
            [⟨txId, none, req.userId, req.amount, TxnType.WITHDRAWAL, txHash⟩])
    ∧ (∀ uid rid str,
        (userUpdateWithdrawalRequest s uid rid str).2.transactions = s.transactions) := by
  have hnorm : upperAscii "APPROVED" = "APPROVED" := by decide
  have hst : statusFromString "APPROVED" = WithdrawalStatus.APPROVED := by decide
  refine ⟨?_, ?_, ?_, ?_⟩
  · cases txnFails <;> simp [adminUpdateWithdrawalRequest, hnorm, hst, hreq]
  · cases txnFails <;> simp [adminUpdateWithdrawalRequest, hnorm, hst, hreq]
  · cases txnFails <;> simp [adminUpdateWithdrawalRequest, hnorm, hst, hreq]
  · intro uid rid str
    unfold userUpdateWithdrawalRequest
    split
    · rfl
    · cases h : s.withdrawalRequests.find? (fun r => r.id == rid && r.userId == uid) <;>
        simp [h]

/-- C6 amended, witness: the admin path at the concrete PENDING request,
with the transaction insert failing, still reports the request APPROVED. -/
theorem claim_c6_withdrawal_approval_witness :
    (adminUpdateWithdrawalRequest wdState0 "r1" "APPROVED" "t1" "h1" true).1
      = Except.ok ⟨"r1", "u1", 50, "bank", WithdrawalStatus.APPROVED⟩ :=
  (claim_c6_withdrawal_approval wdState0 "r1" "t1" "h1" true wdRequest0 rfl).1

/-- Exhaustive case analysis of the settlement handler: a success applies
exactly the SALE insert and the NFT update, and every failure leaves the
state untouched. -/
theorem settlePurchase_cases (s : MarketState) (buyerId nftId : String)
    (now : ℚ) (txId txHash : String) (commit : Bool) :
    (∃ nft p, findNFT s nftId = some nft ∧ nft.price = some p ∧
       settlePurchase s buyerId nftId now txId txHash commit
         = (Except.ok ⟨⟨txId, some nftId, buyerId, p, TxnType.SALE, txHash⟩,
             { nft with ownerId := some buyerId, isSold := true, isListed := false }⟩,
            { s with
                transactions := s.transactions ++
                  [⟨txId, some nftId, buyerId, p, TxnType.SALE, txHash⟩],
                nfts := s.nfts.map (fun n =>
                  if n.id == nftId then
                    { n with ownerId := some buyerId, isSold := true, isListed := false }
                  else n) }))
    ∨ (∃ e, settlePurchase s buyerId nftId now txId txHash commit = (Except.error e, s)) := by
  cases h : findNFT s nftId with
  | none => exact Or.inr ⟨ApiError.notFound, by simp [settlePurchase, h]⟩
  | some nft =>
    have hid : (nft.id == nftId) = true :=
      @List.find?_some NFT (fun n => n.id == nftId) nft s.nfts h
    cases h1 : (!nft.isListed || nft.isSold) with
    | true => exact Or.inr ⟨ApiError.unavailable, by simp [settlePurchase, h, h1]⟩
    | false =>
      cases h2 : (nft.ownerId == some buyerId) with
      | true => exact Or.inr ⟨ApiError.selfPurchase, by simp [settlePurchase, h, h1, h2]⟩
      | false =>
        cases h3 : (activeUnexpiredAuctionFor s nftId now).isSome with
        | true => exact Or.inr ⟨ApiError.activeAuction, by simp [settlePurchase, h, h1, h2, h3]⟩
        | false =>
          cases hp : nft.price with
          | none => exact Or.inr ⟨ApiError.invalidPrice, by simp [settlePurchase, h, h1, h2, h3, hp]⟩
          | some p =>
            by_cases h4 : p ≤ 0
            · exact Or.inr ⟨ApiError.invalidPrice, by simp [settlePurchase, h, h1, h2, h3, hp, h4]⟩
            · cases commit with
              | false =>
                exact Or.inr ⟨ApiError.internalError, by simp [settlePurchase, h, h1, h2, h3, hp, h4]⟩
              | true =>
                left
                refine ⟨nft, p, rfl, hp, ?_⟩
                simp [settlePurchase, h, h1, h2, h3, hp, h4, hid]

/-- C2.  Settling a purchase is atomic: on success the state receives
exactly the SALE transaction (linking the NFT, the buyer and the price)
together with the NFT update (`ownerId` to the buyer, `isSold` true,
`isListed` false); on any failure — precondition or store — the caller
sees an error and the state is exactly the pre-state. -/
theorem claim_c2_settlement_atomicity (s : MarketState) (buyerId nftId : String)
    (now : ℚ) (txId txHash : String) (commit : Bool) :
    (∃ r, (settlePurchase s buyerId nftId now txId txHash commit).1 = Except.ok r
       ∧ r.txn.type = TxnType.SALE ∧ r.txn.nftId = some nftId
       ∧ r.txn.userId = buyerId
       ∧ (∃ nft, findNFT s nftId = some nft ∧ nft.price = some r.txn.amount)
       ∧ r.nft.ownerId = some buyerId ∧ r.nft.isSold = true ∧ r.nft.isListed = false
       ∧ (settlePurchase s buyerId nftId now txId txHash commit).2
           = { s with
                 transactions := s.transactions ++ [r.txn],
                 nfts := s.nfts.map (fun n =>
                   if n.id == nftId then
                     { n with ownerId := some buyerId, isSold := true, isListed := false }
                   else n) })
    ∨ (∃ e, (settlePurchase s buyerId nftId now txId txHash commit).1 = Except.error e
       ∧ (settlePurchase s buyerId nftId now txId txHash commit).2 = s) := by
  rcases settlePurchase_cases s buyerId nftId now txId txHash commit with
    ⟨nft, p, hfind, hp, heq⟩ | ⟨e, heq⟩
  · left
    refine ⟨⟨⟨txId, some nftId, buyerId, p, TxnType.SALE, txHash⟩,
             { nft with ownerId := some buyerId, isSold := true, isListed := false }⟩,
            by rw [heq], rfl, rfl, rfl, ⟨nft, hfind, hp⟩, rfl, rfl, rfl, by rw [heq]⟩
  · right
    exact ⟨e, by rw [heq], by rw [heq]⟩

/-- The settlement verdict reads only the NFT and auction tables: it is
invariant under any replacement of the transaction table. -/
theorem settlePurchase_fst_ignores_txns (s : MarketState) (txns : List Txn)
    (buyerId nftId : String) (now : ℚ) (txId txHash : String) (commit : Bool) :
    (settlePurchase { s with transactions := txns } buyerId nftId now txId txHash commit).1
      = (settlePurchase s buyerId nftId now txId txHash commit).1 := by
  unfold settlePurchase
  rw [show findNFT { s with transactions := txns } nftId = findNFT s nftId from rfl,
      show activeUnexpiredAuctionFor { s with transactions := txns } nftId now
         = activeUnexpiredAuctionFor s nftId now from rfl]
  cases findNFT s nftId with
  | none => rfl
  | some nft =>
    dsimp only
    split
    · rfl
    · split
      · rfl
      · split
        · rfl
        · cases nft.price with
          | none => rfl
          | some p =>
            dsimp only
            split
            · rfl
            · cases commit <;> rfl

/-- C9.  The settlement path never consults the buyer's ledger: its
verdict is unchanged under any replacement of the transaction table (so
no insufficient-funds rejection exists), the SALE row it appends leaves
every user's `DEPOSIT - WITHDRAWAL - MINT` balance unchanged, and a buyer
with a strictly negative computed balance still completes a purchase. -/
theorem claim_c9_settlement_ignores_balance (s : MarketState) (txns : List Txn)
    (buyerId nftId : String) (now : ℚ) (txId txHash : String) (commit : Bool)
    (uid : String) :
    (settlePurchase { s with transactions := txns } buyerId nftId now txId txHash commit).1
      = (settlePurchase s buyerId nftId now txId txHash commit).1
    ∧ specBalance (settlePurchase s buyerId nftId now txId txHash commit).2.transactions uid
      = specBalance s.transactions uid
    ∧ (settlePurchase negBalState "buyer" "n1" 0 "t1" "h1" true).1.isOk = true
    ∧ specBalance negBalState.transactions "buyer" < 0 := by
  refine ⟨settlePurchase_fst_ignores_txns s txns buyerId nftId now txId txHash commit,
    ?_, ?_, ?_⟩
  · rcases settlePurchase_cases s buyerId nftId now txId txHash commit with
      ⟨nft, p, hfind, hp, heq⟩ | ⟨e, heq⟩
    · rw [heq]
      exact specBalance_append_sale _ _ _ rfl
    · rw [heq]
  · simp [settlePurchase, negBalState, negBalNFT, findNFT,
      activeUnexpiredAuctionFor, List.find?, Except.isOk, Except.toBool]
    norm_num
  · simp [specBalance, sumByType, sumWhere, negBalState, List.filter,
      txnType_beq_decide]

/-- Balance-and-commit tail of the NFT-create case analysis, once the
collection check is known to pass. -/
theorem createNFT_cases_aux (s : MarketState) (userId : String) (isAdmin : Bool)
    (inp : MintInput) (nftId tokenId txId txHash : String) (commit : Bool)
    (hcoll : (match inp.collectionId with
       | none => none
       | some cid =>
         match findCollection s cid with
         | none => some ApiError.notFound
         | some c => if c.creatorId == userId || isAdmin then none
                     else some ApiError.forbidden) = (none : Option ApiError)) :
    (createNFT s userId isAdmin inp nftId tokenId txId txHash commit
       = (Except.ok
            (⟨nftId, tokenId, inp.name, inp.description, inp.image, inp.price,
              inp.category, true, false, userId, some userId, inp.collectionId⟩,
             ⟨txId, none, userId, MINT_FEE, TxnType.MINT, txHash⟩),
          { s with
              nfts := s.nfts ++
                [⟨nftId, tokenId, inp.name, inp.description, inp.image, inp.price,
                  inp.category, true, false, userId, some userId, inp.collectionId⟩],
              transactions := s.transactions ++
                [⟨txId, none, userId, MINT_FEE, TxnType.MINT, txHash⟩] })
       ∧ MINT_FEE ≤ availableBalance s.transactions userId ∧ commit = true)
    ∨ (∃ e, createNFT s userId isAdmin inp nftId tokenId txId txHash commit
         = (Except.error e, s)) := by
  by_cases hb : availableBalance s.transactions userId < MINT_FEE
  · refine Or.inr ⟨ApiError.insufficientBalance, ?_⟩
    simp only [createNFT]
    rw [hcoll]
    simp [hb]
  · cases commit with
    | false =>
      refine Or.inr ⟨ApiError.internalError, ?_⟩
      simp only [createNFT]
      rw [hcoll]
      simp [hb]
    | true =>
      refine Or.inl ⟨?_, le_of_not_lt hb, rfl⟩
      simp only [createNFT]
      rw [hcoll]
      simp [hb]

/-- Exhaustive case analysis of the NFT-create handler: success happens
only with sufficient balance and a committing store, and then applies
exactly the NFT insert and the MINT-fee insert; every failure leaves the
state untouched. -/
theorem createNFT_cases (s : MarketState) (userId : String) (isAdmin : Bool)
    (inp : MintInput) (nftId tokenId txId txHash : String) (commit : Bool) :
    (createNFT s userId isAdmin inp nftId tokenId txId txHash commit
       = (Except.ok
            (⟨nftId, tokenId, inp.name, inp.description, inp.image, inp.price,
              inp.category, true, false, userId, some userId, inp.collectionId⟩,
             ⟨txId, none, userId, MINT_FEE, TxnType.MINT, txHash⟩),
          { s with
              nfts := s.nfts ++
                [⟨nftId, tokenId, inp.name, inp.description, inp.image, inp.price,
                  inp.category, true, false, userId, some userId, inp.collectionId⟩],
              transactions := s.transactions ++
                [⟨txId, none, userId, MINT_FEE, TxnType.MINT, txHash⟩] })
       ∧ MINT_FEE ≤ availableBalance s.transactions userId ∧ commit = true)
    ∨ (∃ e, createNFT s userId isAdmin inp nftId tokenId txId txHash commit
         = (Except.error e, s)) := by
  cases hcid : inp.collectionId with
  | none =>
    have h := createNFT_cases_aux s userId isAdmin inp nftId tokenId txId txHash commit
      (by rw [hcid])
    rw [hcid] at h
    exact h
  | some cid =>
    cases hc : findCollection s cid with
    | none =>
      refine Or.inr ⟨ApiError.notFound, ?_⟩
      simp only [createNFT]
      rw [hcid]
      simp [hc]
    | some co =>
      cases hperm : (co.creatorId == userId || isAdmin) with
      | false =>
        refine Or.inr ⟨ApiError.forbidden, ?_⟩
        simp only [createNFT]
        rw [hcid]
        simp [hc, hperm]
      | true =>
        have h := createNFT_cases_aux s userId isAdmin inp nftId tokenId txId txHash commit
          (by rw [hcid]; simp [hc, hperm])
        rw [hcid] at h
        exact h

theorem tablePreserving_sold (s t : MarketState) (i : String)
    (hp : TablePreserving s t) (h : SoldWithHistory s i) : SoldWithHistory t i := by
  obtain ⟨⟨n, hn, hs⟩, x, hx, hxi⟩ := h
  refine ⟨⟨n, ?_, hs⟩, x, hp.2 x hx, hxi⟩
  unfold findNFT at hn ⊢
  rw [hp.1]
  exact hn

theorem placeBid_tablePreserving (s : MarketState) (b a : String) (amt now : ℚ)
    (bidId : String) : TablePreserving s (placeBid s b a amt now bidId).2 := by
  unfold placeBid TablePreserving
  repeat' split
  all_goals exact ⟨rfl, fun x hx => hx⟩

theorem createAuction_tablePreserving (s : MarketState) (u : String) (adm : Bool)
    (inp : AuctionInput) (aid : String) (now : ℚ) :
    TablePreserving s (createAuction s u adm inp aid now).2 := by
  unfold createAuction TablePreserving
  repeat' split
  all_goals exact ⟨rfl, fun x hx => hx⟩

theorem claimProfit_tablePreserving (s : MarketState) (u : String) (now : ℚ)
    (tid th : String) (c : Bool) : TablePreserving s (claimProfit s u now tid th c).2 := by
  unfold claimProfit TablePreserving
  dsimp only
  repeat' split
  all_goals first
    | exact ⟨rfl, fun x hx => hx⟩
    | exact ⟨rfl, fun x hx => List.mem_append_left _ hx⟩

theorem adminUpdateWithdrawalRequest_tablePreserving (s : MarketState)
    (rid str tid th : String) (f : Bool) :
    TablePreserving s (adminUpdateWithdrawalRequest s rid str tid th f).2 := by
  unfold adminUpdateWithdrawalRequest TablePreserving
  repeat' split
  all_goals first
    | exact ⟨rfl, fun x hx => hx⟩
    | exact ⟨rfl, fun x hx => List.mem_append_left _ hx⟩

theorem userUpdateWithdrawalRequest_tablePreserving (s : MarketState)
    (u rid str : String) :
    TablePreserving s (userUpdateWithdrawalRequest s u rid str).2 := by
  unfold userUpdateWithdrawalRequest TablePreserving
  repeat' split
  all_goals exact ⟨rfl, fun x hx => hx⟩

theorem createStockPurchase_tablePreserving (s : MarketState) (u : String)
    (inp : StockPurchaseInput) (sid tid th : String) (now : ℚ) (f : Bool) :
    TablePreserving s (createStockPurchase s u inp sid tid th now f).2 := by
  unfold createStockPurchase TablePreserving
  repeat' split
  all_goals first
    | exact ⟨rfl, fun x hx => hx⟩
    | exact ⟨rfl, fun x hx => List.mem_append_left _ hx⟩

theorem createTransactionRoute_tablePreserving (s : MarketState)
    (inp : TxnCreateInput) (tid : String) :
    TablePreserving s (createTransactionRoute s inp tid).2 := by
  unfold createTransactionRoute TablePreserving
  repeat' split
  all_goals first
    | exact ⟨rfl, fun x hx => hx⟩
    | exact ⟨rfl, fun x hx => List.mem_append_left _ hx⟩

theorem settle_preserves_sold (s : MarketState) (b i2 : String) (now : ℚ)
    (tid th : String) (c : Bool) (i : String) (h : SoldWithHistory s i) :
    SoldWithHistory (settlePurchase s b i2 now tid th c).2 i := by
  rcases settlePurchase_cases s b i2 now tid th c with ⟨nft, p, hfind, hp, heq⟩ | ⟨e, heq⟩
  · rw [heq]
    obtain ⟨⟨n, hn, hs⟩, x, hx, hxi⟩ := h
    refine ⟨?_, x, List.mem_append_left _ hx, hxi⟩
    have hmap := find?_map_id_preserving s.nfts
      (fun n => if n.id == i2 then
          { n with ownerId := some b, isSold := true, isListed := false }
        else n) i
      (fun n => by by_cases hm : (n.id == i2) = true <;> simp [hm])
    refine ⟨(fun n => if n.id == i2 then
        { n with ownerId := some b, isSold := true, isListed := false }
      else n) n, ?_, ?_⟩
    · unfold findNFT at hn ⊢
      dsimp only
      rw [hmap, hn]
      rfl
    · by_cases hm : (n.id == i2) = true <;> simp [hm, hs]
  · rw [heq]
    exact h

theorem updateNFT_state (s : MarketState) (u : String) (adm : Bool)
    (nid : String) (inp : NFTUpdateInput) :
    (updateNFT s u adm nid inp).2 = s
    ∨ (updateNFT s u adm nid inp).2
        = { s with nfts := s.nfts.map (fun m =>
              if m.id == nid then applyNFTUpdate inp m else m) } := by
  cases hfind : findNFT s nid with
  | none => exact Or.inl (by simp [updateNFT, hfind])
  | some n0 =>
    by_cases hperm : (!validateNFTOwnership s u nid adm) = true
    · exact Or.inl (by simp [updateNFT, hfind, hperm])
    · exact Or.inr (by simp [updateNFT, hfind, hperm])

theorem updateNFT_preserves_sold (s : MarketState) (u : String) (adm : Bool)
    (nid : String) (inp : NFTUpdateInput) (i : String) (h : SoldWithHistory s i) :
    SoldWithHistory (updateNFT s u adm nid inp).2 i := by
  rcases updateNFT_state s u adm nid inp with heq | heq
  · rw [heq]; exact h
  · rw [heq]
    obtain ⟨⟨n, hn, hs⟩, x, hx, hxi⟩ := h
    refine ⟨?_, x, hx, hxi⟩
    have hmap := find?_map_id_preserving s.nfts
      (fun m => if m.id == nid then applyNFTUpdate inp m else m) i
      (fun m => by by_cases hm : (m.id == nid) = true <;> simp [hm, applyNFTUpdate])
    refine ⟨(fun m => if m.id == nid then applyNFTUpdate inp m else m) n, ?_, ?_⟩
    · unfold findNFT at hn ⊢
      dsimp only
      rw [hmap, hn]
      rfl
    · by_cases hm : (n.id == nid) = true <;> simp [hm, applyNFTUpdate, hs]

theorem mint_preserves_sold (s : MarketState) (u : String) (adm : Bool)
    (inp : MintInput) (nid tok tid th : String) (c : Bool) (i : String)
    (h : SoldWithHistory s i) :
    SoldWithHistory (createNFT s u adm inp nid tok tid th c).2 i := by
  rcases createNFT_cases s u adm inp nid tok tid th c with ⟨heq, _, _⟩ | ⟨e, heq⟩
  · rw [show (createNFT s u adm inp nid tok tid th c).2 = _ from congrArg Prod.snd heq]
    obtain ⟨⟨n, hn, hs⟩, x, hx, hxi⟩ := h
    refine ⟨⟨n, ?_, hs⟩, x, List.mem_append_left _ hx, hxi⟩
    unfold findNFT at hn ⊢
    exact find?_append_of_found _ _ _ _ hn
  · rw [show (createNFT s u adm inp nid tok tid th c).2 = s from congrArg Prod.snd heq]
    exact h

theorem deleteNFT_preserves_sold (s : MarketState) (u : String) (adm : Bool)
    (nid : String) (i : String) (h : SoldWithHistory s i) :
    SoldWithHistory (deleteNFT s u adm nid).2 i := by
  cases hfind : findNFT s nid with
  | none => rw [show (deleteNFT s u adm nid).2 = s by simp [deleteNFT, hfind]]; exact h
  | some n0 =>
    by_cases hperm : (!validateNFTOwnership s u nid adm) = true
    · rw [show (deleteNFT s u adm nid).2 = s by simp [deleteNFT, hfind, hperm]]; exact h
    · by_cases htx : (s.transactions.any fun t => t.nftId == some nid) = true
      · rw [show (deleteNFT s u adm nid).2 = s by simp [deleteNFT, hfind, hperm, htx]]
        exact h
      · by_cases hau : (s.auctions.any fun a => a.nftId == nid) = true
        · rw [show (deleteNFT s u adm nid).2 = s by
              simp [deleteNFT, hfind, hperm, htx, hau]]
          exact h
        · obtain ⟨⟨n, hn, hs⟩, x, hx, hxi⟩ := h
          by_cases hi : i = nid
          · exfalso
            apply htx
            rw [List.any_eq_true]
            exact ⟨x, hx, by rw [hxi, hi]; exact beq_self_eq_true _⟩
          · rw [show (deleteNFT s u adm nid).2
                = { s with nfts := s.nfts.filter (fun n => !(n.id == nid)) } by
                simp [deleteNFT, hfind, hperm, htx, hau]]
            refine ⟨⟨n, ?_, hs⟩, x, hx, hxi⟩
            unfold findNFT at hn ⊢
            dsimp only
            rw [find?_filter_other_id s.nfts i nid hi]
            exact hn

theorem step_preserves_sold {s t : MarketState} (i : String)
    (hstep : Step s t) (h : SoldWithHistory s i) : SoldWithHistory t i := by
  cases hstep with
  | settle b i2 now tid th c => exact settle_preserves_sold s b i2 now tid th c i h
  | mint u adm inp nid tok tid th c =>
      exact mint_preserves_sold s u adm inp nid tok tid th c i h
  | bid b a amt now bidId =>
      exact tablePreserving_sold _ _ i (placeBid_tablePreserving s b a amt now bidId) h
  | auction u adm inp aid now =>
      exact tablePreserving_sold _ _ i (createAuction_tablePreserving s u adm inp aid now) h
  | claim u now tid th c =>
      exact tablePreserving_sold _ _ i (claimProfit_tablePreserving s u now tid th c) h
  | adminWithdraw rid str tid th f =>
      exact tablePreserving_sold _ _ i
        (adminUpdateWithdrawalRequest_tablePreserving s rid str tid th f) h
  | userWithdraw u rid str =>
      exact tablePreserving_sold _ _ i
        (userUpdateWithdrawalRequest_tablePreserving s u rid str) h
  | stock u inp sid tid th now f =>
      exact tablePreserving_sold _ _ i
        (createStockPurchase_tablePreserving s u inp sid tid th now f) h
  | nftUpdate u adm nid inp => exact updateNFT_preserves_sold s u adm nid inp i h
  | nftDelete u adm nid => exact deleteNFT_preserves_sold s u adm nid i h
  | txn inp tid =>
      exact tablePreserving_sold _ _ i (createTransactionRoute_tablePreserving s inp tid) h

theorem star_preserves_sold (s t : MarketState) (i : String)
    (hstar : Relation.ReflTransGen Step s t) (h : SoldWithHistory s i) :
    SoldWithHistory t i := by
  induction hstar with
  | refl => exact h
  | tail _ hbc ih => exact step_preserves_sold i hbc ih

/-- C8.  After a successful settlement of an NFT, every later purchase
attempt on the same NFT — after any interleaving of the embedded
operations — fails with the unavailability error and leaves the state
unchanged: the settlement makes the NFT sold (and unlisted), every
operation preserves sold-ness, and the availability precondition rejects
a sold NFT before any mutation. -/
theorem claim_c8_resale_unavailable (s : MarketState) (b i : String) (now : ℚ)
    (tid th : String) (c : Bool) (r : SettleResult)
    (hok : (settlePurchase s b i now tid th c).1 = Except.ok r)
    (t : MarketState)
    (hstar : Relation.ReflTransGen Step (settlePurchase s b i now tid th c).2 t)
    (b2 : String) (now2 : ℚ) (tid2 th2 : String) (c2 : Bool) :
    settlePurchase t b2 i now2 tid2 th2 c2 = (Except.error ApiError.unavailable, t) := by
  have h0 : SoldWithHistory (settlePurchase s b i now tid th c).2 i := by
    rcases settlePurchase_cases s b i now tid th c with ⟨nft, p, hfind, hp, heq⟩ | ⟨e, heq⟩
    · rw [show (settlePurchase s b i now tid th c).2 = _ from congrArg Prod.snd heq]
      constructor
      · have hid : (nft.id == i) = true :=
          @List.find?_some NFT (fun n => n.id == i) nft s.nfts hfind
        have hmap := find?_map_id_preserving s.nfts
          (fun n => if n.id == i then
              { n with ownerId := some b, isSold := true, isListed := false }
            else n) i
          (fun n => by by_cases hm : (n.id == i) = true <;> simp [hm])
        refine ⟨{ nft with ownerId := some b, isSold := true, isListed := false }, ?_, rfl⟩
        unfold findNFT at hfind ⊢
        dsimp only
        rw [hmap, hfind]
        dsimp only [Option.map]
        rw [if_pos hid]
      · exact ⟨⟨tid, some i, b, p, TxnType.SALE, th⟩,
          List.mem_append_right _ (List.mem_singleton_self _), rfl⟩
    · rw [show (settlePurchase s b i now tid th c).1 = Except.error e
          from congrArg Prod.fst heq] at hok
      exact absurd hok (by simp)
  obtain ⟨⟨n, hn, hs⟩, _⟩ := star_preserves_sold _ t i hstar h0
  simp [settlePurchase, hn, hs]

/-- C8, witness: a concrete settlement followed by an immediate second
purchase attempt of the same NFT, which fails `Unavailable` without a
state change. -/
theorem claim_c8_resale_unavailable_witness :
    settlePurchase (settlePurchase negBalState "buyer" "n1" 0 "t1" "h1" true).2
        "buyer2" "n1" 0 "t2" "h2" true
      = (Except.error ApiError.unavailable,
         (settlePurchase negBalState "buyer" "n1" 0 "t1" "h1" true).2) := by
  have hok : (settlePurchase negBalState "buyer" "n1" 0 "t1" "h1" true).1
      = Except.ok ⟨⟨"t1", some "n1", "buyer", 1, TxnType.SALE, "h1"⟩,
          { negBalNFT with ownerId := some "buyer", isSold := true, isListed := false }⟩ := by
    simp [settlePurchase, negBalState, negBalNFT, findNFT,
      activeUnexpiredAuctionFor, List.find?]
    norm_num
  exact claim_c8_resale_unavailable negBalState "buyer" "n1" 0 "t1" "h1" true _ hok _
    Relation.ReflTransGen.refl "buyer2" 0 "t2" "h2" true

/-- The bid handler accepts exactly the requests satisfying `BidAccepted`
(for schema-valid positive amounts): acceptance appends exactly the one
bid row, and every rejection returns an error with the state untouched. -/
theorem placeBid_spec (s : MarketState) (bidderId auctionId : String)
    (amount now : ℚ) (bidId : String) (hpos : 0 < amount) :
    (BidAccepted s bidderId auctionId amount now →
       ∃ a, findAuction s auctionId = some a ∧
         placeBid s bidderId auctionId amount now bidId
           = (Except.ok ⟨bidId, auctionId, a.nftId, bidderId, amount⟩,
              { s with bids := s.bids ++ [⟨bidId, auctionId, a.nftId, bidderId, amount⟩] }))
    ∧ (¬ BidAccepted s bidderId auctionId amount now →
       ∃ e, placeBid s bidderId auctionId amount now bidId = (Except.error e, s)) := by
  have hnle : ¬ (amount ≤ 0) := not_le.mpr hpos
  cases ha : findAuction s auctionId with
  | none =>
    refine ⟨?_, fun _ => ⟨ApiError.notFound, by simp [placeBid, hnle, ha]⟩⟩
    rintro ⟨a', ha', _⟩
    rw [ha] at ha'
    exact absurd ha' (by simp)
  | some a =>
    cases hact : a.isActive with
    | false =>
      refine ⟨?_, fun _ => ⟨ApiError.inactive, by simp [placeBid, hnle, ha, hact]⟩⟩
      rintro ⟨a', ha', hact', _⟩
      rw [ha] at ha'
      cases Option.some_inj.mp ha'
      rw [hact] at hact'
      exact absurd hact' (by simp)
    | true =>
      by_cases hend : a.endTime ≤ now
      · refine ⟨?_, fun _ => ⟨ApiError.expired, by simp [placeBid, hnle, ha, hact, hend]⟩⟩
        rintro ⟨a', ha', _, hend', _⟩
        rw [ha] at ha'
        cases Option.some_inj.mp ha'
        exact absurd hend' (not_lt.mpr hend)
      · by_cases hown : (((findNFT s a.nftId).bind NFT.ownerId) == some bidderId) = true
        · refine ⟨?_, fun _ =>
            ⟨ApiError.selfBid, by simp [placeBid, hnle, ha, hact, hend, hown]⟩⟩
          rintro ⟨a', ha', _, _, hown', _⟩
          rw [ha] at ha'
          cases Option.some_inj.mp ha'
          exact absurd (beq_iff_eq.mp hown) hown'
        · by_cases hmin : amount < minimumBidFor s a auctionId
          · refine ⟨?_, fun _ => ⟨ApiError.bidTooLow,
              by simp [placeBid, hnle, ha, hact, hend, hown, hmin]⟩⟩
            rintro ⟨a', ha', _, _, _, hmin', _⟩
            rw [ha] at ha'
            cases Option.some_inj.mp ha'
            exact absurd hmin' (not_le.mpr hmin)
          · cases hhb : highestBid (bidsOf s auctionId) with
            | some hb =>
              by_cases hself : (hb.bidderId == bidderId) = true
              · refine ⟨?_, fun _ => ⟨ApiError.alreadyHighest,
                  by simp [placeBid, hnle, ha, hact, hend, hown, hmin, hhb, hself]⟩⟩
                rintro ⟨a', ha', _, _, _, _, hhigh'⟩
                rw [ha] at ha'
                cases Option.some_inj.mp ha'
                exact absurd (beq_iff_eq.mp hself) (hhigh' hb hhb)
              · refine ⟨fun _ => ⟨a, rfl,
                  by simp [placeBid, hnle, ha, hact, hend, hown, hmin, hhb, hself]⟩,
                  fun hn => absurd ?_ hn⟩
                refine ⟨a, ha, hact, not_le.mp hend,
                  fun h => hown (beq_iff_eq.mpr h), not_lt.mp hmin, ?_⟩
                intro hb' hhb'
                rw [hhb] at hhb'
                cases Option.some_inj.mp hhb'
                exact fun h => hself (beq_iff_eq.mpr h)
            | none =>
              refine ⟨fun _ => ⟨a, rfl,
                by simp [placeBid, hnle, ha, hact, hend, hown, hmin, hhb]⟩,
                fun hn => absurd ?_ hn⟩
              refine ⟨a, ha, hact, not_le.mp hend,
                fun h => hown (beq_iff_eq.mpr h), not_lt.mp hmin, ?_⟩
              intro hb' hhb'
              rw [hhb] at hhb'
              exact absurd hhb' (by simp)

/-- C3.  A bid is accepted exactly when the auction exists and is active,
its end time has not passed, the bidder is not the NFT's owner, the
amount is at least the minimum acceptable bid, and the bidder does not
already hold the highest bid; rejection returns the error with no bid
row created.  On the start-price-1 auction: a first bid of 1.0 succeeds,
a repeated 1.0 fails BidTooLow, 1.01 from the same bidder fails
AlreadyHighest, 1.02 from another bidder succeeds. -/
theorem claim_c3_bid_rules (s : MarketState) (bidderId auctionId : String)
    (amount now : ℚ) (bidId : String) (hpos : 0 < amount) :
    ((∃ bid, (placeBid s bidderId auctionId amount now bidId).1 = Except.ok bid)
       ↔ BidAccepted s bidderId auctionId amount now)
    ∧ (∀ e, (placeBid s bidderId auctionId amount now bidId).1 = Except.error e →
        (placeBid s bidderId auctionId amount now bidId).2 = s)
    ∧ (∀ bid, (placeBid s bidderId auctionId amount now bidId).1 = Except.ok bid →
        (placeBid s bidderId auctionId amount now bidId).2
          = { s with bids := s.bids ++ [bid] })
    ∧ ((placeBid bidState0 "u1" "a1" 1 0 "b1").1
        = Except.ok ⟨"b1", "a1", "n1", "u1", 1⟩)
    ∧ ((placeBid bidState1 "u1" "a1" 1 0 "b2").1 = Except.error ApiError.bidTooLow)
    ∧ ((placeBid bidState1 "u1" "a1" (101/100) 0 "b3").1
        = Except.error ApiError.alreadyHighest)
    ∧ (∃ bid, (placeBid bidState1 "u2" "a1" (102/100) 0 "b4").1 = Except.ok bid) := by
  obtain ⟨hacc, hrej⟩ := placeBid_spec s bidderId auctionId amount now bidId hpos
  refine ⟨⟨?_, ?_⟩, ?_, ?_, ?_, ?_, ?_, ?_⟩
  · rintro ⟨bid, hbid⟩
    by_contra hn
    obtain ⟨e, he⟩ := hrej hn
    rw [show (placeBid s bidderId auctionId amount now bidId).1 = Except.error e
        from congrArg Prod.fst he] at hbid
    exact absurd hbid (by simp)
  · intro h
    obtain ⟨a, _, heq⟩ := hacc h
    exact ⟨_, by rw [show (placeBid s bidderId auctionId amount now bidId).1 = _
      from congrArg Prod.fst heq]⟩
  · intro e he
    by_cases h : BidAccepted s bidderId auctionId amount now
    · obtain ⟨a, _, heq⟩ := hacc h
      rw [show (placeBid s bidderId auctionId amount now bidId).1 = _
        from congrArg Prod.fst heq] at he
      exact absurd he (by simp)
    · obtain ⟨e', he'⟩ := hrej h
      rw [show (placeBid s bidderId auctionId amount now bidId).2 = s
        from congrArg Prod.snd he']
  · intro bid hbid
    by_cases h : BidAccepted s bidderId auctionId amount now
    · obtain ⟨a, _, heq⟩ := hacc h
      rw [show (placeBid s bidderId auctionId amount now bidId).1 = _
        from congrArg Prod.fst heq] at hbid
      rw [show (placeBid s bidderId auctionId amount now bidId).2 = _
        from congrArg Prod.snd heq]
      cases hbid
      rfl
    · obtain ⟨e', he'⟩ := hrej h
      rw [show (placeBid s bidderId auctionId amount now bidId).1 = Except.error e'
        from congrArg Prod.fst he'] at hbid
      exact absurd hbid (by simp)
  · simp [placeBid, bidState0, bidNFT, bidAuction, findAuction, findNFT,
      minimumBidFor, highestBid, bidsOf, List.find?, List.filter]
    norm_num
  · simp [placeBid, bidState1, bidState0, bidNFT, bidAuction, findAuction, findNFT,
      minimumBidFor, highestBid, bidsOf, List.find?, List.filter]
    norm_num
  · simp [placeBid, bidState1, bidState0, bidNFT, bidAuction, findAuction, findNFT,
      minimumBidFor, highestBid, bidsOf, List.find?, List.filter]
    norm_num
  · refine ⟨⟨"b4", "a1", "n1", "u2", 102/100⟩, ?_⟩
    simp [placeBid, bidState1, bidState0, bidNFT, bidAuction, findAuction, findNFT,
      minimumBidFor, highestBid, bidsOf, List.find?, List.filter]
    norm_num

/-- C3, witness: the concrete first bid of the scenario is accepted. -/
theorem claim_c3_bid_rules_witness :
    (placeBid bidState0 "u1" "a1" 1 0 "b1").1
      = Except.ok ⟨"b1", "a1", "n1", "u1", 1⟩ :=
  (claim_c3_bid_rules bidState0 "u1" "a1" 1 0 "b1" (by norm_num)).2.2.2.1

/-- A collectionless mint with sufficient balance and a committing store
creates exactly the NFT and the MINT-fee transaction. -/
theorem createNFT_ok (s : MarketState) (userId : String) (isAdmin : Bool)
    (inp : MintInput) (nftId tokenId txId txHash : String)
    (hcoll : inp.collectionId = none)
    (hb : MINT_FEE ≤ availableBalance s.transactions userId) :
    createNFT s userId isAdmin inp nftId tokenId txId txHash true
      = (Except.ok
           (⟨nftId, tokenId, inp.name, inp.description, inp.image, inp.price,
             inp.category, true, false, userId, some userId, inp.collectionId⟩,
            ⟨txId, none, userId, MINT_FEE, TxnType.MINT, txHash⟩),
         { s with
             nfts := s.nfts ++
               [⟨nftId, tokenId, inp.name, inp.description, inp.image, inp.price,
                 inp.category, true, false, userId, some userId, inp.collectionId⟩],
             transactions := s.transactions ++
               [⟨txId, none, userId, MINT_FEE, TxnType.MINT, txHash⟩] }) := by
  simp only [createNFT]
  rw [hcoll]
  simp [not_lt.mpr hb]

/-- A mint against an insufficient balance fails with the
insufficient-funds error and no writes, whatever the store would do. -/
theorem createNFT_insufficient (s : MarketState) (userId : String) (isAdmin : Bool)
    (inp : MintInput) (nftId tokenId txId txHash : String) (commit : Bool)
    (hcoll : inp.collectionId = none)
    (hb : availableBalance s.transactions userId < MINT_FEE) :
    createNFT s userId isAdmin inp nftId tokenId txId txHash commit
      = (Except.error ApiError.insufficientBalance, s) := by
  simp only [createNFT]
  rw [hcoll]
  simp [hb]

/-- A mint whose atomic pair fails to commit reports an error and leaves
the state untouched. -/
theorem createNFT_abort (s : MarketState) (userId : String) (isAdmin : Bool)
    (inp : MintInput) (nftId tokenId txId txHash : String)
    (hcoll : inp.collectionId = none)
    (hb : MINT_FEE ≤ availableBalance s.transactions userId) :
    createNFT s userId isAdmin inp nftId tokenId txId txHash false
      = (Except.error ApiError.internalError, s) := by
  simp only [createNFT]
  rw [hcoll]
  simp [not_lt.mpr hb]

/-- Appending a MINT transaction of the same user debits the computed
balance by its amount. -/
theorem availableBalance_append_mint (l : List Txn) (x : Txn) (uid : String)
    (hx : x.type = TxnType.MINT) (hu : x.userId = uid) :
    availableBalance (l ++ [x]) uid = availableBalance l uid - x.amount := by
  simp [availableBalance, sumByType_append_single, hx, hu]
  ring

/-- After `k ≤ 10` successful mints the scenario balance is `1 - k/10`. -/
theorem mintChain_balance : ∀ k, k ≤ 10 →
    availableBalance (mintChain k).transactions "u1" = 1 - (k : ℚ)/10 := by
  intro k
  induction k with
  | zero =>
    intro _
    simp [mintChain, mintState0, availableBalance, sumByType, sumWhere,
      List.filter, txnType_beq_decide]
  | succ n ih =>
    intro hk
    have hbal := ih (Nat.le_of_succ_le hk)
    have hn9 : (n : ℚ) ≤ 9 := by
      have : n ≤ 9 := Nat.lt_succ_iff.mp (Nat.lt_of_succ_le hk)
      exact_mod_cast this
    have hfee : MINT_FEE ≤ availableBalance (mintChain n).transactions "u1" := by
      rw [hbal, MINT_FEE]
      linarith
    have heq := createNFT_ok (mintChain n) "u1" false mintInput0 "m" "m" "m" "m" rfl hfee
    show availableBalance
        ((createNFT (mintChain n) "u1" false mintInput0 "m" "m" "m" "m" true).2).transactions
        "u1" = _
    rw [congrArg Prod.snd heq]
    rw [show ({ mintChain n with
        nfts := (mintChain n).nfts ++
          [⟨"m", "m", mintInput0.name, mintInput0.description, mintInput0.image,
            mintInput0.price, mintInput0.category, true, false, "u1", some "u1",
            mintInput0.collectionId⟩],
        transactions := (mintChain n).transactions ++
          [⟨"m", none, "u1", MINT_FEE, TxnType.MINT, "m"⟩] } : MarketState).transactions
      = (mintChain n).transactions ++ [⟨"m", none, "u1", MINT_FEE, TxnType.MINT, "m"⟩]
      from rfl]
    rw [availableBalance_append_mint _ _ _ rfl rfl, hbal]
    push_cast
    rw [MINT_FEE]
    ring

/-- C4.  Minting is gated on the fresh computed balance: below the fee
0.1 it fails with the insufficient-funds error and writes nothing; at or
above the fee the NFT and the MINT-fee transaction are written together
(or, if the store aborts, neither is).  A user whose deposits sum to 1.0
completes exactly ten mints; the eleventh fails with the state
unchanged. -/
theorem claim_c4_mint_debit (s : MarketState) (userId : String) (isAdmin : Bool)
    (inp : MintInput) (nftId tokenId txId txHash : String) (commit : Bool)
    (hcoll : inp.collectionId = none) :
    (availableBalance s.transactions userId < MINT_FEE →
       createNFT s userId isAdmin inp nftId tokenId txId txHash commit
         = (Except.error ApiError.insufficientBalance, s))
    ∧ (MINT_FEE ≤ availableBalance s.transactions userId →
       createNFT s userId isAdmin inp nftId tokenId txId txHash true
         = (Except.ok
              (⟨nftId, tokenId, inp.name, inp.description, inp.image, inp.price,
                inp.category, true, false, userId, some userId, inp.collectionId⟩,
               ⟨txId, none, userId, MINT_FEE, TxnType.MINT, txHash⟩),
            { s with
                nfts := s.nfts ++
                  [⟨nftId, tokenId, inp.name, inp.description, inp.image, inp.price,
                    inp.category, true, false, userId, some userId, inp.collectionId⟩],
                transactions := s.transactions ++
                  [⟨txId, none, userId, MINT_FEE, TxnType.MINT, txHash⟩] }))
    ∧ (MINT_FEE ≤ availableBalance s.transactions userId →
       createNFT s userId isAdmin inp nftId tokenId txId txHash false
         = (Except.error ApiError.internalError, s))
    ∧ (∀ k, k < 10 →
       ∃ r, (createNFT (mintChain k) "u1" false mintInput0 "m" "m" "m" "m" true).1
         = Except.ok r)
    ∧ (createNFT (mintChain 10) "u1" false mintInput0 "m" "m" "m" "m" true
         = (Except.error ApiError.insufficientBalance, mintChain 10)) := by
  refine ⟨fun hb => createNFT_insufficient s userId isAdmin inp nftId tokenId txId
      txHash commit hcoll hb,
    fun hb => createNFT_ok s userId isAdmin inp nftId tokenId txId txHash hcoll hb,
    fun hb => createNFT_abort s userId isAdmin inp nftId tokenId txId txHash hcoll hb,
    ?_, ?_⟩
  · intro k hk
    have hbal := mintChain_balance k (le_of_lt hk)
    have hk9 : (k : ℚ) ≤ 9 := by
      have : k ≤ 9 := Nat.lt_succ_iff.mp hk
      exact_mod_cast this
    have hfee : MINT_FEE ≤ availableBalance (mintChain k).transactions "u1" := by
      rw [hbal, MINT_FEE]
      linarith
    have heq := createNFT_ok (mintChain k) "u1" false mintInput0 "m" "m" "m" "m" rfl hfee
    exact ⟨_, congrArg Prod.fst heq⟩
  · have hbal := mintChain_balance 10 le_rfl
    have hb : availableBalance (mintChain 10).transactions "u1" < MINT_FEE := by
      rw [hbal, MINT_FEE]
      norm_num
    exact createNFT_insufficient (mintChain 10) "u1" false mintInput0 "m" "m" "m" "m"
      true rfl hb

/-- C4, witness: at the concrete post-ten-mints state the eleventh mint is
rejected for insufficient balance with no state change. -/
theorem claim_c4_mint_debit_witness :
    createNFT (mintChain 10) "u1" false mintInput0 "m" "m" "m" "m" true
      = (Except.error ApiError.insufficientBalance, mintChain 10) :=
  (claim_c4_mint_debit mintState0 "u1" false mintInput0 "m" "m" "m" "m" true rfl).2.2.2.2

/-- With unique purchase ids, updating the purchases whose ids appear in
the contributing-id list is the same as updating the purchases satisfying
the contributing predicate. -/
theorem claimProfit_map_by_id (s : MarketState) (uid : String) (now : ℚ)
    (hids : (s.stockPurchases.map StockPurchase.id).Nodup) :
    s.stockPurchases.map (fun p =>
      if (((s.stockPurchases.filter (fun p => p.userId == uid)).filter
            (fun p => decide (0 < purchaseProfit now p))).map StockPurchase.id).contains p.id
      then { p with lastProfitClaimAt := now } else p)
    = s.stockPurchases.map (fun p =>
      if p.userId == uid && decide (0 < purchaseProfit now p)
      then { p with lastProfitClaimAt := now } else p) := by
  apply List.map_congr_left
  intro p hp
  by_cases hc : (p.userId == uid && decide (0 < purchaseProfit now p)) = true
  · have hmem : p.id ∈ ((s.stockPurchases.filter (fun p => p.userId == uid)).filter
        (fun p => decide (0 < purchaseProfit now p))).map StockPurchase.id := by
      refine List.mem_map_of_mem _ ?_
      rw [List.mem_filter]
      rw [Bool.and_eq_true] at hc
      exact ⟨List.mem_filter.mpr ⟨hp, hc.1⟩, hc.2⟩
    have hcont : (((s.stockPurchases.filter (fun p => p.userId == uid)).filter
        (fun p => decide (0 < purchaseProfit now p))).map StockPurchase.id).contains p.id
        = true := by
      rw [List.contains_eq_any_beq, List.any_eq_true]
      exact ⟨p.id, hmem, by simp⟩
    rw [if_pos hcont, if_pos hc]
  · have hcont : (((s.stockPurchases.filter (fun p => p.userId == uid)).filter
        (fun p => decide (0 < purchaseProfit now p))).map StockPurchase.id).contains p.id
        = false := by
      rw [Bool.eq_false_iff]
      intro htrue
      rw [List.contains_eq_any_beq, List.any_eq_true] at htrue
      obtain ⟨x, hx, hbeq⟩ := htrue
      obtain ⟨q, hq, hqid⟩ := List.mem_map.mp hx
      have hq0 : q ∈ s.stockPurchases :=
        List.mem_of_mem_filter (List.mem_of_mem_filter hq)
      have hpq : q = p := by
        apply List.inj_on_of_nodup_map hids hq0 hp
        rw [hqid]
        exact (beq_iff_eq.mp hbeq).symm
      rw [hpq] at hq
      rw [List.mem_filter] at hq
      obtain ⟨hq1, hq2⟩ := hq
      rw [List.mem_filter] at hq1
      exact hc (by rw [Bool.and_eq_true]; exact ⟨hq1.2, hq2⟩)
    rw [if_neg (Bool.eq_false_iff.mp hcont), if_neg hc]

/-- The concrete one-hour claim state: one DEPOSIT of 10 and the purchase
timestamp advanced to the claim time. -/
theorem claimState1_eq : claimState1
    = ⟨[⟨"u1", false⟩], [], [], [], [],
       [⟨"t1", none, "u1", 10, TxnType.DEPOSIT, "h1"⟩],
       [⟨"p1", "u1", "AAPL", 100, 100, 1, 3600000⟩], []⟩ := by
  norm_num [claimState1, claimProfit, claimState0, claimPurchase0, findUser,
    totalAccrued, purchaseProfit, hoursElapsed, roundCents, round_eq,
    List.find?, List.filter]

/-- C5.  Claiming profit accrues 10% of `amountUSD` per elapsed hour per
purchase; with positive total accrual and a committing store exactly one
aggregate DEPOSIT for the rounded total is appended and every
contributing purchase's `lastProfitClaimAt` advances to now together;
with zero (or negative) accrual the claim reports zero and changes
nothing; if the atomic block aborts nothing is written.  Concretely, a
100-USD purchase claimed after one hour accrues 10, and the immediate
re-claim reports zero with no new transaction. -/
theorem claim_c5_profit_accrual (s : MarketState) (uid : String) (now : ℚ)
    (tid th : String) (commit : Bool) (u : User)
    (hu : findUser s uid = some u)
    (hids : (s.stockPurchases.map StockPurchase.id).Nodup) :
    (totalAccrued s uid now ≤ 0 →
       claimProfit s uid now tid th commit = (Except.ok 0, s))
    ∧ (0 < totalAccrued s uid now →
       claimProfit s uid now tid th true
         = (Except.ok (totalAccrued s uid now),
            { s with
                transactions := s.transactions ++
                  [⟨tid, none, uid, roundCents (totalAccrued s uid now),
                    TxnType.DEPOSIT, th⟩],
                stockPurchases := s.stockPurchases.map (fun p =>
                  if p.userId == uid && decide (0 < purchaseProfit now p)
                  then { p with lastProfitClaimAt := now } else p) }))
    ∧ (0 < totalAccrued s uid now →
       claimProfit s uid now tid th false = (Except.error ApiError.internalError, s))
    ∧ ((claimProfit claimState0 "u1" 3600000 "t1" "h1" true).1 = Except.ok 10)
    ∧ (claimState1.transactions = [⟨"t1", none, "u1", 10, TxnType.DEPOSIT, "h1"⟩])
    ∧ (claimProfit claimState1 "u1" 3600000 "t2" "h2" true = (Except.ok 0, claimState1)) := by
  refine ⟨?_, ?_, ?_, ?_, ?_, ?_⟩
  · intro hle
    simp only [claimProfit]
    rw [hu]
    simp [hle]
  · intro hpos
    simp only [claimProfit]
    rw [hu]
    dsimp only
    rw [if_neg (not_le.mpr hpos)]
    rw [claimProfit_map_by_id s uid now hids]
    exact if_pos trivial
  · intro hpos
    simp only [claimProfit]
    rw [hu]
    dsimp only
    rw [if_neg (not_le.mpr hpos)]
    rfl
  · norm_num [claimProfit, claimState0, claimPurchase0, findUser, totalAccrued,
      purchaseProfit, hoursElapsed, roundCents, round_eq, List.find?, List.filter]
  · rw [claimState1_eq]
  · rw [claimState1_eq]
    norm_num [claimProfit, findUser, totalAccrued, purchaseProfit, hoursElapsed,
      List.find?, List.filter]

/-- C5, witness: the concrete one-hour claim succeeds with 10 claimed. -/
theorem claim_c5_profit_accrual_witness :
    (claimProfit claimState0 "u1" 3600000 "t1" "h1" true).1 = Except.ok 10 :=
  (claim_c5_profit_accrual claimState0 "u1" 3600000 "t1" "h1" true ⟨"u1", false⟩
    rfl (by simp [claimState0])).2.2.2.1

/-- With the NFT found, `validateNFTOwnership` is the admin flag or the
creator or owner comparison. -/
theorem validateNFTOwnership_eq (s : MarketState) (userId nftId : String)
    (isAdmin : Bool) (nft : NFT) (h : findNFT s nftId = some nft) :
    validateNFTOwnership s userId nftId isAdmin
      = (isAdmin || (nft.creatorId == userId || nft.ownerId == some userId)) := by
  unfold validateNFTOwnership
  cases isAdmin <;> simp [h]

/-- The auction-create handler accepts exactly the `AuctionAllowed`
requests, appends exactly the one auction row on success, and leaves the
state untouched on every rejection. -/
theorem createAuction_spec (s : MarketState) (userId : String) (isAdmin : Bool)
    (inp : AuctionInput) (aid : String) (now : ℚ) :
    (AuctionAllowed s userId isAdmin inp now →
       createAuction s userId isAdmin inp aid now
         = (Except.ok ⟨aid, inp.nftId, userId, inp.startingPrice, inp.reservePrice,
              inp.startingPrice, now, now + inp.duration * 3600000, true⟩,
            { s with auctions := s.auctions ++
                [⟨aid, inp.nftId, userId, inp.startingPrice, inp.reservePrice,
                  inp.startingPrice, now, now + inp.duration * 3600000, true⟩] }))
    ∧ (¬ AuctionAllowed s userId isAdmin inp now →
       ∃ e, createAuction s userId isAdmin inp aid now = (Except.error e, s)) := by
  by_cases hv : auctionInputValid inp = true
  · cases hn : findNFT s inp.nftId with
    | none =>
      refine ⟨?_, fun _ => ⟨ApiError.notFound, by simp [createAuction, hv, hn]⟩⟩
      rintro ⟨_, nft, hn', _⟩
      rw [hn] at hn'
      exact absurd hn' (by simp)
    | some nft =>
      have howneq := validateNFTOwnership_eq s userId inp.nftId isAdmin nft hn
      cases hown : validateNFTOwnership s userId inp.nftId isAdmin with
      | false =>
        refine ⟨?_, fun _ => ⟨ApiError.forbidden, by simp [createAuction, hv, hn, hown]⟩⟩
        rintro ⟨_, nft', hn', hperm', _⟩
        rw [hn] at hn'
        cases Option.some_inj.mp hn'
        rw [hown] at howneq
        rcases hperm' with h | h | h
        · rw [h] at howneq
          exact absurd howneq.symm (by simp)
        · rw [← beq_iff_eq] at h
          rw [h] at howneq
          exact absurd howneq.symm (by simp)
        · have hb : (nft.ownerId == some userId) = true := beq_iff_eq.mpr h
          rw [hb] at howneq
          exact absurd howneq.symm (by simp)
      | true =>
        cases hsold : nft.isSold with
        | true =>
          refine ⟨?_, fun _ =>
            ⟨ApiError.alreadySold, by simp [createAuction, hv, hn, hown, hsold]⟩⟩
          rintro ⟨_, nft', hn', _, hsold', _⟩
          rw [hn] at hn'
          cases Option.some_inj.mp hn'
          rw [hsold] at hsold'
          exact absurd hsold' (by simp)
        | false =>
          cases hau : activeUnexpiredAuctionFor s inp.nftId now with
          | some a0 =>
            refine ⟨?_, fun _ => ⟨ApiError.alreadyActive,
              by simp [createAuction, hv, hn, hown, hsold, hau]⟩⟩
            rintro ⟨_, nft', hn', _, _, hau'⟩
            rw [hn] at hn'
            cases Option.some_inj.mp hn'
            rw [hau] at hau'
            exact absurd hau' (by simp)
          | none =>
            refine ⟨fun _ => by simp [createAuction, hv, hn, hown, hsold, hau],
              fun hnacc => absurd ?_ hnacc⟩
            refine ⟨hv, nft, hn, ?_, hsold, hau⟩
            rw [hown] at howneq
            have hor := howneq.symm
            rw [Bool.or_eq_true, Bool.or_eq_true] at hor
            rcases hor with h | h | h
            · exact Or.inl h
            · exact Or.inr (Or.inl (beq_iff_eq.mp h))
            · exact Or.inr (Or.inr (beq_iff_eq.mp h))
  · refine ⟨fun hacc => absurd hacc.1 hv, fun _ =>
      ⟨ApiError.validationFailed, ?_⟩⟩
    simp only [createAuction]
    rw [if_pos]
    rw [Bool.not_eq_true] at hv
    rw [hv]
    rfl

/-- A successful creation adds the auction for an NFT that had no active
unexpired auction, so the per-NFT at-most-one invariant is preserved. -/
theorem createAuction_preserves_invariant (s : MarketState) (userId : String)
    (isAdmin : Bool) (inp : AuctionInput) (aid : String) (now : ℚ)
    (hinv : AtMostOneActive s now) :
    AtMostOneActive (createAuction s userId isAdmin inp aid now).2 now := by
  by_cases hallow : AuctionAllowed s userId isAdmin inp now
  · have heq := (createAuction_spec s userId isAdmin inp aid now).1 hallow
    rw [show (createAuction s userId isAdmin inp aid now).2 = _
      from congrArg Prod.snd heq]
    intro i
    obtain ⟨_, nft, _, _, _, hau⟩ := hallow
    have hempty : s.auctions.filter (fun a =>
        a.nftId == inp.nftId && a.isActive && decide (now < a.endTime)) = [] := by
      rw [List.filter_eq_nil_iff]
      intro a ha
      have := List.find?_eq_none.mp hau a ha
      simpa using this
    unfold activeCount
    dsimp only
    rw [List.filter_append]
    by_cases hi : i = inp.nftId
    · rw [hi, hempty]
      rw [List.nil_append]
      exact List.length_filter_le _ _
    · have hnew : ((([⟨aid, inp.nftId, userId, inp.startingPrice, inp.reservePrice,
          inp.startingPrice, now, now + inp.duration * 3600000, true⟩] : List Auction)).filter
          (fun a => a.nftId == i && a.isActive && decide (now < a.endTime))) = [] := by
        rw [List.filter_eq_nil_iff]
        intro a ha
        rw [List.mem_singleton] at ha
        subst ha
        simp [Ne.symm hi]
      rw [hnew, List.append_nil]
      exact hinv i
  · obtain ⟨e, heq⟩ := (createAuction_spec s userId isAdmin inp aid now).2 hallow
    rw [show (createAuction s userId isAdmin inp aid now).2 = s
      from congrArg Prod.snd heq]
    exact hinv

/-- C7 counterexample.  An auction is successfully created by a requester
who is neither the NFT's owner nor an admin: the NFT's creator still
passes the ownership check even after ownership has moved to someone
else, so "succeeds only if the NFT is owned by the requester (or the
requester is an admin)" fails on the code. -/
theorem claim_c7_counterexample :
    (∃ a, (createAuction c7State "alice" false c7Input "a1" 0).1 = Except.ok a)
    ∧ findNFT c7State "n1" = some c7NFT
    ∧ c7NFT.ownerId = some "bob"
    ∧ ("alice" : String) ≠ "bob"
    ∧ c7NFT.isSold = false := by
  refine ⟨?_, rfl, rfl, by decide, rfl⟩
  refine ⟨⟨"a1", "n1", "alice", 1, none, 1, 0, 0 + 24 * 3600000, true⟩, ?_⟩
  rw [show (createAuction c7State "alice" false c7Input "a1" 0)
      = (Except.ok ⟨"a1", "n1", "alice", 1, none, 1, 0, 0 + 24 * 3600000, true⟩,
         { c7State with auctions := c7State.auctions ++
             [⟨"a1", "n1", "alice", 1, none, 1, 0, 0 + 24 * 3600000, true⟩] })
    from (createAuction_spec c7State "alice" false c7Input "a1" 0).1
      ⟨by norm_num [auctionInputValid, c7Input]; decide, c7NFT, rfl, Or.inr (Or.inl rfl),
       rfl, rfl⟩]

/-- C7 amended.  Creating an auction succeeds exactly when the input is
schema-valid, the NFT exists and is not sold, the requester is the NFT's
creator or owner (or an admin), and no active unexpired auction exists
for that NFT; success appends exactly one active auction ending
`durationHours` after now, failure changes nothing, and the per-NFT
at-most-one-active-unexpired-auction invariant is preserved. -/
theorem claim_c7_auction_creation (s : MarketState) (userId : String)
    (isAdmin : Bool) (inp : AuctionInput) (aid : String) (now : ℚ) :
    ((∃ a, (createAuction s userId isAdmin inp aid now).1 = Except.ok a)
       ↔ AuctionAllowed s userId isAdmin inp now)
    ∧ (∀ a, (createAuction s userId isAdmin inp aid now).1 = Except.ok a →
        a = ⟨aid, inp.nftId, userId, inp.startingPrice, inp.reservePrice,
             inp.startingPrice, now, now + inp.duration * 3600000, true⟩
        ∧ (createAuction s userId isAdmin inp aid now).2
            = { s with auctions := s.auctions ++ [a] })
    ∧ (∀ e, (createAuction s userId isAdmin inp aid now).1 = Except.error e →
        (createAuction s userId isAdmin inp aid now).2 = s)
    ∧ (AtMostOneActive s now →
       AtMostOneActive (createAuction s userId isAdmin inp aid now).2 now) := by
  obtain ⟨hacc, hrej⟩ := createAuction_spec s userId isAdmin inp aid now
  refine ⟨⟨?_, ?_⟩, ?_, ?_, createAuction_preserves_invariant s userId isAdmin inp aid now⟩
  · rintro ⟨a, ha⟩
    by_contra hn
    obtain ⟨e, he⟩ := hrej hn
    rw [show (createAuction s userId isAdmin inp aid now).1 = Except.error e
      from congrArg Prod.fst he] at ha
    exact absurd ha (by simp)
  · intro h
    exact ⟨_, congrArg Prod.fst (hacc h)⟩
  · intro a ha
    by_cases h : AuctionAllowed s userId isAdmin inp now
    · have heq := hacc h
      rw [show (createAuction s userId isAdmin inp aid now).1 = _
        from congrArg Prod.fst heq] at ha
      cases ha
      exact ⟨rfl, congrArg Prod.snd heq⟩
    · obtain ⟨e, he⟩ := hrej h
      rw [show (createAuction s userId isAdmin inp aid now).1 = Except.error e
        from congrArg Prod.fst he] at ha
      exact absurd ha (by simp)
  · intro e he
    by_cases h : AuctionAllowed s userId isAdmin inp now
    · have heq := hacc h
      rw [show (createAuction s userId isAdmin inp aid now).1 = _
        from congrArg Prod.fst heq] at he
      exact absurd he (by simp)
    · obtain ⟨e', he'⟩ := hrej h
      exact congrArg Prod.snd he'

/-- C7 amended, witness: the owner's auction on the concrete NFT is
created, and the invariant holds afterwards. -/
theorem claim_c7_auction_creation_witness :
    (∃ a, (createAuction c7State "bob" false c7Input "a1" 0).1 = Except.ok a)
    ∧ AtMostOneActive (createAuction c7State "bob" false c7Input "a1" 0).2 0 :=
  ⟨(claim_c7_auction_creation c7State "bob" false c7Input "a1" 0).1.mpr
     ⟨by norm_num [auctionInputValid, c7Input]; decide, c7NFT, rfl, Or.inr (Or.inr rfl),
      rfl, rfl⟩,
   (claim_c7_auction_creation c7State "bob" false c7Input "a1" 0).2.2.2
     (fun i => Nat.zero_le 1)⟩

end FPay
